import Mathlib

/-!
Verification development for the qcio data-interchange library.

The Python source is shallowly embedded in Lean:
* Python `str` values are embedded as `List Char` (named `LC` below); operations
  such as `str.split`, `str.strip`, `str.capitalize`, `str.replace`,
  `str.startswith` and slicing are reimplemented character by character.
* Python numbers: `int` becomes `Int`; `float` is idealised as `ℚ` (the codec
  claims under study are about decimal precision, which survives this
  idealisation; exact binary-float rounding is not modelled).
* Fallible Python code (exceptions such as `ValueError`, `IndexError`,
  `ValidationError`) becomes `Except LC` / `Option` values.
* `bytes` values become `List Nat`, each entry intended to be `< 256`.
-/

/-- Python `str` values are embedded as lists of characters. -/
abbrev LC := List Char

/-- Characters treated as whitespace by Python's `str.split()` / `str.strip()`
(the ASCII subset: space, tab, newline, carriage return, vertical tab, form feed). -/
def pyIsSpace (c : Char) : Bool :=
  c = ' ' || c = '\t' || c = '\n' || c = '\r' || c = Char.ofNat 11 || c = Char.ofNat 12

/-- Split a character list at every character satisfying `p`, keeping empty
segments (the semantics of Python's `str.split(sep)` for a one-character `sep`
when `p` is equality with that character). Never returns `[]`. -/
def pySplitOnP (p : Char → Bool) : LC → List LC
  | [] => [[]]
  | c :: cs =>
    if p c then [] :: pySplitOnP p cs
    else
      match pySplitOnP p cs with
      | [] => [[c]]
      | h :: t => (c :: h) :: t

/-- Python `s.split("\n")`. -/
def splitLines (s : LC) : List LC := pySplitOnP (· = '\n') s

/-- Python `s.split()` (no argument): split on whitespace runs, dropping empty
fields, leading and trailing whitespace. -/
def pySplitWs (s : LC) : List LC := (pySplitOnP pyIsSpace s).filter (· ≠ [])

/-- Python `sep.join(items)`. -/
def joinSep (sep : LC) : List LC → LC
  | [] => []
  | [l] => l
  | l :: ls => l ++ sep ++ joinSep sep ls

/-- Python `s.strip()`: remove leading and trailing whitespace. -/
def pyStrip (s : LC) : LC :=
  ((s.dropWhile pyIsSpace).reverse.dropWhile pyIsSpace).reverse

/-- Python `s.capitalize()`: first character upper-cased, the rest lower-cased. -/
def pyCapitalize : LC → LC
  | [] => []
  | c :: cs => c.toUpper :: cs.map Char.toLower

/-- Python `s.replace(pat, "")` for a non-empty pattern `pat`: remove every
(non-overlapping, left-to-right) occurrence of `pat`. -/
def pyRemoveAll (pat : LC) (s : LC) : LC :=
  if _h : pat = [] then s
  else
    match s with
    | [] => []
    | c :: cs =>
      if pat.isPrefixOf (c :: cs) then pyRemoveAll pat ((c :: cs).drop pat.length)
      else c :: pyRemoveAll pat cs
termination_by s.length
decreasing_by
  · simp only [List.length_drop]
    have hp : 0 < pat.length := by
      cases pat with
      | nil => simp_all
      | cons a l => simp
    simp only [List.length_cons]
    omega
  · simp

/-- Normalize a Python slice index against a list length. -/
def pyNormIdx (n : Int) (i : Int) : Nat :=
  (if i < 0 then max (n + i) 0 else min i n).toNat

/-- Python slicing `l[start:stop]` (with possibly negative indices). -/
def pySlice (l : List α) (start stop : Int) : List α :=
  (l.drop (pyNormIdx l.length start)).take
    (pyNormIdx l.length stop - pyNormIdx l.length start)

/-- Python indexing `l[i]` with negative-index wrap-around; `none` models
`IndexError`. -/
def pyIdx (l : List α) (i : Int) : Option α :=
  if i < 0 then l.get? (l.length + i).toNat |>.filter (fun _ => 0 ≤ (l.length : Int) + i)
  else l.get? i.toNat

/-- Little-endian decimal digits of a natural number (empty for 0). -/
def natDigitsRev (n : Nat) : List Nat :=
  if _h : n = 0 then [] else (n % 10) :: natDigitsRev (n / 10)
termination_by n
decreasing_by exact Nat.div_lt_self (Nat.pos_of_ne_zero _h) (by norm_num)

/-- Value of a little-endian digit list. -/
def valRev : List Nat → Nat
  | [] => 0
  | d :: ds => d + 10 * valRev ds

/-- The character for a decimal digit. -/
def digitChar (d : Nat) : Char := Char.ofNat (48 + d)

/-- Python `str(n)` for a natural number. -/
def natToChars (n : Nat) : LC :=
  if n = 0 then ['0'] else ((natDigitsRev n).reverse).map digitChar

/-- Python `str(z)` for an integer. -/
def intToChars (z : Int) : LC :=
  if z < 0 then '-' :: natToChars z.natAbs else natToChars z.natAbs

/-- Parse a non-empty all-digit character list into a natural number. -/
def parseNatDigits (s : LC) : Option Nat :=
  if s ≠ [] ∧ s.all Char.isDigit then
    some (s.foldl (fun a c => 10 * a + (c.toNat - 48)) 0)
  else none

/-- Python `int(s)`: strip whitespace, optional sign, decimal digits.
(Underscore separators accepted by CPython are not modelled.) -/
def pyInt (s : LC) : Option Int :=
  match pyStrip s with
  | [] => none
  | c :: ds =>
    if c = '-' then (parseNatDigits ds).map (fun n => -(n : Int))
    else if c = '+' then (parseNatDigits ds).map (fun n => (n : Int))
    else (parseNatDigits (c :: ds)).map (fun n => (n : Int))

/-- Parse an unsigned decimal literal (`"12"`, `"12.5"`, `".5"`, `"5."`)
into a rational. -/
def parseUnsignedDec (s : LC) : Option ℚ :=
  match pySplitOnP (· = '.') s with
  | [ip] => (parseNatDigits ip).map (fun n => (n : ℚ))
  | [ip, fp] =>
    let ipv : Option Nat := if ip = [] then some 0 else parseNatDigits ip
    let fpv : Option Nat := if fp = [] then some 0 else parseNatDigits fp
    match ipv, fpv with
    | some i, some f =>
      if ip = [] ∧ fp = [] then none
      else some ((i : ℚ) + (f : ℚ) / (10 : ℚ) ^ fp.length)
    | _, _ => none
  | _ => none

/-- Python `float(s)` restricted to plain decimal notation (the only form the
codec under study produces; exponent notation and inf/nan are not modelled).
The resulting value is idealised as an exact rational. -/
def pyFloat (s : LC) : Option ℚ :=
  match pyStrip s with
  | [] => none
  | c :: body =>
    if c = '-' then (parseUnsignedDec body).map (fun q => -q)
    else if c = '+' then parseUnsignedDec body
    else parseUnsignedDec (c :: body)

/-- Zero-pad a digit string on the left to length `p`. -/
def padZeros (p : Nat) (ds : LC) : LC := List.replicate (p - ds.length) '0' ++ ds

/-- Python `format(x, "." + str(p) + "f")` idealised over ℚ: fixed-point decimal
with `p` digits after the point.  (CPython rounds the underlying binary float
half-to-even; the idealisation rounds the rational half-up, which agrees except
on exact decimal ties and preserves the codec's precision bound.  `p = 0`
renders with no decimal point, as in Python.) -/
def renderFixed (p : Nat) (q : ℚ) : LC :=
  let m : Int := round (q * (10 : ℚ) ^ p)
  let sign : LC := if m < 0 then ['-'] else []
  let a := m.natAbs
  if p = 0 then sign ++ natToChars a
  else sign ++ natToChars (a / 10 ^ p) ++ '.' :: padZeros p (natToChars (a % 10 ^ p))

/-- Right-align in a field of width 18 padding with spaces:
Python's `"{: >18.pf}"` width directive. -/
def padLeft18 (s : LC) : LC := List.replicate (18 - s.length) ' ' ++ s

/-- Python `"{:2s}".format(s)`: left-align in a field of width 2. -/
def pyFormat2s (s : LC) : LC := s ++ List.replicate (2 - s.length) ' '

/-- Python dict assignment `m[k] = v` on an insertion-ordered association list:
replace the value in place if the key exists, else append. -/
def dictUpsert [DecidableEq α] (m : List (α × β)) (k : α) (v : β) : List (α × β) :=
  if m.any (fun p => p.1 = k) then m.map (fun p => if p.1 = k then (k, v) else p)
  else m ++ [(k, v)]

/-- Python dict lookup `m.get(k)`. -/
def dictLookup [DecidableEq α] (m : List (α × β)) (k : α) : Option β :=
  (m.find? (fun p => p.1 = k)).map (fun p => p.2)

/-- Python `base.update(**upd)`: apply every entry of `upd` to `base` in order. -/
def dictMerge [DecidableEq α] (base upd : List (α × β)) : List (α × β) :=
  upd.foldl (fun acc p => dictUpsert acc p.1 p.2) base

/-! ### base64 (Python `base64.b64encode` / `base64.b64decode`) -/

/-- The standard base64 alphabet. -/
def b64Alphabet : LC :=
  "ABCDEFGHIJKLMNOPQRSTUVWXYZabcdefghijklmnopqrstuvwxyz0123456789+/".data

/-- The alphabet character for a 6-bit value. -/
def sixToChar (n : Nat) : Char := b64Alphabet.getD n 'A'

/-- The 6-bit value of an alphabet character. -/
def charToSix (c : Char) : Option Nat := b64Alphabet.findIdx? (· = c)

/-- Whether a character belongs to the base64 alphabet. -/
def isB64Char (c : Char) : Bool := b64Alphabet.contains c

/-- `base64.b64encode(bs).decode("utf-8")`: 3 bytes become 4 alphabet
characters; a final chunk of 1 or 2 bytes is padded with `=`. -/
def b64encodeRaw : List Nat → LC
  | [] => []
  | [a] => [sixToChar (a / 4), sixToChar (a % 4 * 16), '=', '=']
  | [a, b] => [sixToChar (a / 4), sixToChar (a % 4 * 16 + b / 16), sixToChar (b % 16 * 4), '=']
  | a :: b :: c :: rest =>
    sixToChar (a / 4) :: sixToChar (a % 4 * 16 + b / 16) ::
      sixToChar (b % 16 * 4 + c / 64) :: sixToChar (c % 64) :: b64encodeRaw rest

/-- Map alphabet characters to their 6-bit values (`none` on a foreign character). -/
def charsToSixbits : LC → Option (List Nat)
  | [] => some []
  | c :: cs =>
    match charToSix c, charsToSixbits cs with
    | some n, some ns => some (n :: ns)
    | _, _ => none

/-- Reassemble bytes from 6-bit groups; a trailing group of 2 or 3 values
yields 1 or 2 bytes, a trailing group of 1 value is invalid. -/
def sixGroupsToBytes : List Nat → Option (List Nat)
  | [] => some []
  | [_] => none
  | [x, y] => some [x * 4 + y / 16]
  | [x, y, z] => some [x * 4 + y / 16, y % 16 * 16 + z / 4]
  | x :: y :: z :: w :: rest =>
    (sixGroupsToBytes rest).map
      (fun bs => (x * 4 + y / 16) :: (y % 16 * 16 + z / 4) :: (z % 4 * 64 + w) :: bs)

/-- The characters of `s` kept by `b64decode`: alphabet characters and `=`. -/
def b64Filtered (s : LC) : LC := s.filter (fun c => isB64Char c || c = '=')

/-- The data portion of a base64 string: everything before the first `=`. -/
def b64Main (s : LC) : LC := (b64Filtered s).takeWhile (· ≠ '=')

/-- The padding portion of a base64 string. -/
def b64Padding (s : LC) : LC := (b64Filtered s).drop (b64Main s).length

/-- Python `base64.b64decode(s)` (default non-validating mode): characters
outside the alphabet and `=` are discarded, the total length must be a
multiple of 4, at most two trailing `=` of padding are allowed; `none`
models `binascii.Error`. -/
def pyB64decode (s : LC) : Option (List Nat) :=
  if (b64Filtered s).length % 4 ≠ 0 then none
  else if (b64Padding s).length ≤ 2 ∧ (b64Padding s).all (· = '=') then
    match charsToSixbits (b64Main s) with
    | some ns => sixGroupsToBytes ns
    | none => none
  else none

/-! ### The Files mixin (`qcio/models/base_models.py`) -/

/-- A value held in a `Files.files` mapping: Python `str` or `bytes`. -/
inductive PyVal where
  | str (s : LC)
  | bytes (b : List Nat)
deriving DecidableEq, Repr

/-- The serialization marker for binary blobs. -/
def b64Tag : LC := "base64:".data

/-- The files mapping `dict[str, Union[str, bytes]]`. -/
abbrev FilesMap := List (LC × PyVal)

/-- `Files._convert_base64_to_bytes` applied to one value: a `str` beginning
with `"base64:"` is decoded to `bytes`; anything else passes through.  This
field validator runs at every construction of a `Files` model, not only when
reading a serialized form. -/
def valueValidate (v : PyVal) : Except LC PyVal :=
  match v with
  | .bytes b => .ok (.bytes b)
  | .str s =>
    if b64Tag.isPrefixOf s then
      match pyB64decode (s.drop 7) with
      | some b => .ok (.bytes b)
      | none => .error "binascii.Error: invalid base64-encoded string".data
    else .ok (.str s)

/-- `Files._convert_base64_to_bytes` over the whole mapping. -/
def filesValidate : FilesMap → Except LC FilesMap
  | [] => .ok []
  | (k, v) :: rest =>
    match valueValidate v with
    | .error e => .error e
    | .ok v' =>
      match filesValidate rest with
      | .error e => .error e
      | .ok rest' => .ok ((k, v') :: rest')

/-- `Files._serialize_files` applied to one value: `bytes` become the
`"base64:"`-prefixed encoding, `str` passes through. -/
def serializeValue : PyVal → PyVal
  | .bytes b => .str (b64Tag ++ b64encodeRaw b)
  | .str s => .str s

/-- `Files._serialize_files` over the whole mapping. -/
def filesSerialize (m : FilesMap) : FilesMap :=
  m.map (fun p => (p.1, serializeValue p.2))

/-- All byte entries are in range (Python `bytes` values always are). -/
def ValidBytes (v : PyVal) : Prop :=
  match v with
  | .str _ => True
  | .bytes b => ∀ x ∈ b, x < 256

instance : DecidablePred ValidBytes := fun v =>
  match v with
  | .str _ => isTrue trivial
  | .bytes b => inferInstanceAs (Decidable (∀ x ∈ b, x < 256))

/-! ### The Structure entity and XYZ codec (`qcio/models/structure.py`) -/

/-- `qcio.constants.BOHR_TO_ANGSTROM = 0.529177210544`, the single fixed
conversion constant used by every codec call site, as an exact rational. -/
def BOHR_TO_ANGSTROM : ℚ := 529177210544 / 10 ^ 12

/-- Modelled from the spec: the static periodic-table lookup table.  The source
loads it from a CSV data file (`constants_data/pubchem.csv`) that is not part
of the source snapshot; only the canonical (capitalized) element symbols are
relevant to the codec, and they are the standard 118 symbols. -/
def periodicTableSymbols : List LC :=
  ["H", "He", "Li", "Be", "B", "C", "N", "O", "F", "Ne",
   "Na", "Mg", "Al", "Si", "P", "S", "Cl", "Ar", "K", "Ca",
   "Sc", "Ti", "V", "Cr", "Mn", "Fe", "Co", "Ni", "Cu", "Zn",
   "Ga", "Ge", "As", "Se", "Br", "Kr", "Rb", "Sr", "Y", "Zr",
   "Nb", "Mo", "Tc", "Ru", "Rh", "Pd", "Ag", "Cd", "In", "Sn",
   "Sb", "Te", "I", "Xe", "Cs", "Ba", "La", "Ce", "Pr", "Nd",
   "Pm", "Sm", "Eu", "Gd", "Tb", "Dy", "Ho", "Er", "Tm", "Yb",
   "Lu", "Hf", "Ta", "W", "Re", "Os", "Ir", "Pt", "Au", "Hg",
   "Tl", "Pb", "Bi", "Po", "At", "Rn", "Fr", "Ra", "Ac", "Th",
   "Pa", "U", "Np", "Pu", "Am", "Cm", "Bk", "Cf", "Es", "Fm",
   "Md", "No", "Lr", "Rf", "Db", "Sg", "Bh", "Hs", "Mt", "Ds",
   "Rg", "Cn", "Nh", "Fl", "Mc", "Lv", "Ts", "Og"].map String.data

/-- The field names of the `Identifiers` model (its `extras` field is excluded
by `to_xyz` and is not an identifier). -/
def identifierFieldNames : List LC :=
  ["name", "name_IUPAC", "smiles", "canonical_smiles", "canonical_smiles_program",
   "canonical_explicit_hydrogen_smiles", "canonical_isomeric_smiles",
   "canonical_isomeric_explicit_hydrogen_smiles",
   "canonical_isomeric_explicit_hydrogen_mapped_smiles",
   "inchi", "inchikey", "pubchem_cid", "pubchem_sid",
   "pubchem_conformerid"].map String.data

/-- The `Structure` model.  `identifiers` is the insertion-ordered list of the
set, non-`None` string fields of the nested `Identifiers` model; `xyzComments`
is the `extras["xyz_comments"]` entry, the only part of `extras` the XYZ codec
reads or writes.  `connectivity` is carried untouched by the codec and omitted. -/
structure PyStructure where
  symbols : List LC
  geometry : List (ℚ × ℚ × ℚ)
  charge : Int
  multiplicity : Int
  identifiers : List (LC × LC)
  xyzComments : List LC
deriving DecidableEq, Repr

/-- Group a flat list into consecutive triples. -/
def group3 : List ℚ → List (ℚ × ℚ × ℚ)
  | x :: y :: z :: rest => (x, y, z) :: group3 rest
  | _ => []

/-- `np.array(rows).reshape(n, 3)`: the rows must form a rectangular array of
total size `3 * n`. -/
def reshapeRows (rows : List (List ℚ)) (n : Nat) : Except LC (List (ℚ × ℚ × ℚ)) :=
  let uniform : Bool :=
    match rows with
    | [] => true
    | r :: rs => rs.all (fun x => x.length = r.length)
  let flat := rows.flatten
  if uniform ∧ flat.length = 3 * n then .ok (group3 flat)
  else .error "ValueError: cannot reshape array".data

/-- `Structure` construction: the `_validate_symbols_and_geometry` before-model
validator (capitalize symbols, require them in the periodic table, reshape
geometry to `N x 3`) plus `Identifiers(**identifier_kwargs)` field validation
(`extra = "forbid"`: unknown identifier keys are rejected). -/
def mkStructure (symbols : List LC) (geometry : List (List ℚ)) (charge : Int)
    (multiplicity : Int) (identifiers : List (LC × LC)) (xyzComments : List LC) :
    Except LC PyStructure :=
  let caps := symbols.map pyCapitalize
  if ¬ (caps.all (fun s => periodicTableSymbols.contains s)) then
    .error "ValueError: invalid atomic symbol".data
  else if ¬ (identifiers.all (fun p => identifierFieldNames.contains p.1)) then
    .error "ValidationError: extra identifier fields not permitted".data
  else
    match reshapeRows geometry caps.length with
    | .error e => .error e
    | .ok geo => .ok ⟨caps, geo, charge, multiplicity, identifiers, xyzComments⟩

/-- The `qcio__identifiers_<field>=<value>` tokens of `to_xyz`: one per truthy
(set and non-empty) identifier field, in field order. -/
def identTokens (S : PyStructure) : List LC :=
  (S.identifiers.filter (fun p => p.2 ≠ [])).map
    (fun p => "qcio__identifiers_".data ++ p.1 ++ '=' :: p.2)

/-- All tokens of the `to_xyz` comment line: `qcio_charge`,
`qcio_multiplicity`, identifier tokens, then the carried-over
`extras["xyz_comments"]` tokens.  (The source joins the qcio tokens and then
appends `" " + " ".join(xyz_comments)` when the comment list is non-empty,
which produces the same line as joining the concatenated token list.) -/
def commentTokens (S : PyStructure) : List LC :=
  ("qcio_charge=".data ++ intToChars S.charge) ::
    ("qcio_multiplicity=".data ++ intToChars S.multiplicity) ::
    (identTokens S ++ S.xyzComments)

/-- One coordinate line of `to_xyz`:
`"{:2s} {: >18.pf} {: >18.pf} {: >18.pf}"` with the coordinates converted from
Bohr to Angstrom by `BOHR_TO_ANGSTROM`. -/
def coordLine (p : Nat) (sym : LC) (c : ℚ × ℚ × ℚ) : LC :=
  pyFormat2s sym ++
    ' ' :: padLeft18 (renderFixed p (c.1 * BOHR_TO_ANGSTROM)) ++
    ' ' :: padLeft18 (renderFixed p (c.2.1 * BOHR_TO_ANGSTROM)) ++
    ' ' :: padLeft18 (renderFixed p (c.2.2 * BOHR_TO_ANGSTROM))

/-- The lines accumulated by `to_xyz`: atom count, comment line, one line per
atom, and a final empty string so the join ends with a newline. -/
def toXyzLines (S : PyStructure) (p : Nat) : List LC :=
  natToChars S.symbols.length :: joinSep [' '] (commentTokens S) ::
    ((S.symbols.zip S.geometry).map (fun sg => coordLine p sg.1 sg.2) ++ [[]])

/-- `Structure.to_xyz(precision)` (default precision 17). -/
def toXyz (S : PyStructure) (p : Nat) : LC := joinSep ['\n'] (toXyzLines S p)

/-- A scalar keyword argument collected by `from_xyz`: a string token from the
file, or an integer passed as a call argument. -/
inductive PyScalar where
  | str (s : LC)
  | int (z : Int)
deriving DecidableEq, Repr

/-- Pydantic coercion of a keyword value to an `int` field. -/
def coerceInt : PyScalar → Option Int
  | .int z => some z
  | .str s => pyInt s

/-- The comment-line token loop of `from_xyz`: route `qcio__identifiers_*`
tokens into identifier kwargs, other `qcio_*` tokens into structure kwargs
(dict semantics: a later token overwrites an earlier one with the same key; the
key is `item.split("=")[0]` with the prefix removed by `str.replace`, the value
is `item.split("=")[1]`, and a token without `=` raises `IndexError`), and
everything else into the ordered comment bucket. -/
def classifyTokens : List LC → List (LC × PyScalar) → List (LC × LC) → List LC →
    Except LC (List (LC × PyScalar) × List (LC × LC) × List LC)
  | [], sk, ik, oc => .ok (sk, ik, oc)
  | t :: ts, sk, ik, oc =>
    let parts := pySplitOnP (· = '=') t
    if "qcio__identifiers_".data.isPrefixOf t then
      match parts.get? 1 with
      | none => .error "IndexError: list index out of range".data
      | some v =>
        classifyTokens ts sk
          (dictUpsert ik (pyRemoveAll "qcio__identifiers_".data parts.headI) v) oc
    else if "qcio_".data.isPrefixOf t then
      match parts.get? 1 with
      | none => .error "IndexError: list index out of range".data
      | some v =>
        classifyTokens ts
          (dictUpsert sk (pyRemoveAll "qcio_".data parts.headI) (.str v)) ik oc
    else classifyTokens ts sk ik (oc ++ [t])

/-- Parse the per-atom lines of `from_xyz`: `split_line[0]` is the symbol
(IndexError on a blank line), the remaining tokens are parsed with `float` and
divided by `BOHR_TO_ANGSTROM`. -/
def parseCoordRows : List LC → Except LC (List LC × List (List ℚ))
  | [] => .ok ([], [])
  | line :: rest =>
    match pySplitWs line with
    | [] => .error "IndexError: list index out of range".data
    | s :: vals =>
      match vals.mapM pyFloat with
      | none => .error "ValueError: could not convert string to float".data
      | some qs =>
        match parseCoordRows rest with
        | .error e => .error e
        | .ok pr => .ok (s :: pr.1, qs.map (fun q => q / BOHR_TO_ANGSTROM) :: pr.2)

/-- The body of `Structure.from_xyz` after the text has been split into lines. -/
def fromXyzLines (lines : List LC) (chargeArg multArg : Option Int) :
    Except LC PyStructure :=
  match pyInt lines.headI with
  | none => .error "ValueError: invalid literal for int".data
  | some numAtoms =>
  match lines.get? 1 with
  | none => .error "IndexError: list index out of range".data
  | some commentLn =>
  match classifyTokens (pySplitWs (pyStrip commentLn)) [] [] [] with
  | .error e => .error e
  | .ok (sk, ik, oc) =>
  if chargeArg.isSome ∧ (dictLookup sk "charge".data).isSome then
    .error "Charge cannot be set in the file and as an argument.".data
  else if multArg.isSome ∧ (dictLookup sk "multiplicity".data).isSome then
    .error "Multiplicity cannot be set in the file and as an argument.".data
  else
  let sk :=
    match chargeArg with
    | some c => dictUpsert sk "charge".data (.int c)
    | none => sk
  let sk :=
    match multArg with
    | some m => dictUpsert sk "multiplicity".data (.int m)
    | none => sk
  match parseCoordRows (pySlice lines 2 (2 + numAtoms)) with
  | .error e => .error e
  | .ok (syms, geom) =>
  -- `cls(symbols=..., geometry=..., **structure_kwargs, identifiers=...,
  -- extras=...)`: any structure kwarg other than charge/multiplicity collides
  -- with an explicit keyword (TypeError) or is rejected by the model
  -- (`extra = "forbid"` / uncoercible value): both are construction failures.
  if ¬ (sk.all (fun p => p.1 = "charge".data ∨ p.1 = "multiplicity".data)) then
    .error "TypeError: unexpected or duplicate structure keyword".data
  else
  match (match dictLookup sk "charge".data with
         | none => some (0 : Int)
         | some v => coerceInt v),
        (match dictLookup sk "multiplicity".data with
         | none => some (1 : Int)
         | some v => coerceInt v) with
  | some c, some m => mkStructure syms geom c m ik oc
  | _, _ => .error "ValidationError: value is not a valid integer".data

/-- `Structure.from_xyz(xyz_str, charge=..., multiplicity=...)`. -/
def fromXyz (s : LC) (chargeArg multArg : Option Int) : Except LC PyStructure :=
  fromXyzLines (splitLines s) chargeArg multArg

/-- The inner blank-line skip of `from_xyz_multi`:
`while i < len(lines) and not lines[i].strip(): i += 1`. -/
def skipBlanks (lines : List LC) (i : Nat) : Nat :=
  if h : i < lines.length ∧ pyStrip (lines.getD i []) = [] then skipBlanks lines (i + 1)
  else i
termination_by lines.length - i
decreasing_by omega

/-- The `while i < len(lines)` loop of `from_xyz_multi`.  The extra fuel
argument is an embedding artifact bounding the number of iterations: on a
pathological stream whose atom-count line is a sufficiently negative integer
the Python loop re-reads earlier lines forever, which the model reports as an
error; every terminating Python execution is reproduced exactly when run with
fuel larger than the iteration count.  (The inner skip is only reached with a
non-negative index in such executions, so it is indexed by a `Nat`.) -/
def fromXyzMultiLoop (lines : List LC) (chargeArg multArg : Option Int) :
    Nat → Int → Except LC (List PyStructure)
  | 0, _ => .error "model: iteration fuel exhausted".data
  | fuel + 1, i =>
    if i < (lines.length : Int) then
      match pyIdx lines i with
      | none => .error "IndexError: list index out of range".data
      | some line =>
        match pyInt line with
        | none => .error "ValueError: invalid literal for int".data
        | some numAtoms =>
          match fromXyz (joinSep ['\n'] (pySlice lines i (i + numAtoms + 2)))
              chargeArg multArg with
          | .error e => .error e
          | .ok S =>
            match fromXyzMultiLoop lines chargeArg multArg fuel
              (if i + numAtoms + 2 < 0 then i + numAtoms + 2
               else (skipBlanks lines (i + numAtoms + 2).toNat : Int)) with
            | .error e => .error e
            | .ok rest => .ok (S :: rest)
    else .ok []

/-- `Structure.from_xyz_multi(xyz_str, charge=..., multiplicity=...)`. -/
def fromXyzMulti (s : LC) (chargeArg multArg : Option Int) :
    Except LC (List PyStructure) :=
  let lines := splitLines (pyStrip s)
  fromXyzMultiLoop lines chargeArg multArg (lines.length + 1) 0

/-- Interleave parse blocks with the blank-separator runs that follow them. -/
def assembleBlocks : List (List LC × List LC) → List LC
  | [] => []
  | (b, s) :: rest => b ++ s ++ assembleBlocks rest

/-- The result of `Structure.open`: a single structure, a list of structures,
or a dispatch to the generic `QCIOModelBase.open` decoder (JSON/YAML/TOML, not
part of the XYZ codec model; note that the charge/multiplicity arguments are
not forwarded on that path). -/
inductive OpenResult where
  | one (s : PyStructure)
  | many (ss : List PyStructure)
  | viaGeneric
deriving DecidableEq, Repr

/-- Python truthiness of an `Optional[int]`: `None` and `0` are falsy. -/
def truthyOptInt : Option Int → Bool
  | none => false
  | some z => z ≠ 0

/-- `Structure.open(filepath, charge, multiplicity)`, abstracted over the
file's suffix and text content (file reading itself is out of scope). -/
def structureOpen (suffix : LC) (fileText : LC) (charge multiplicity : Option Int) :
    Except LC OpenResult :=
  if (truthyOptInt charge || truthyOptInt multiplicity) ∧ suffix ≠ ".xyz".data then
    .error "Charge and multiplicity can only be set when opening an XYZ file.".data
  else if suffix = ".xyz".data then
    match fromXyzMulti fileText charge multiplicity with
    | .error e => .error e
    | .ok [s] => .ok (.one s)
    | .ok ss => .ok (.many ss)
  else .ok .viaGeneric

/-! ### The Results container and Data variants (`qcio/models/results.py`) -/

/-- The `CalcType` enum. -/
inductive PyCalcType where
  | energy
  | gradient
  | hessian
  | optimization
  | transitionState
  | conformerSearch
deriving DecidableEq, Repr

/-- `CalcType.value`. -/
def calcTypeValue : PyCalcType → LC
  | .energy => "energy".data
  | .gradient => "gradient".data
  | .hessian => "hessian".data
  | .optimization => "optimization".data
  | .transitionState => "transition_state".data
  | .conformerSearch => "conformer_search".data

/-- The `Model` value record (method and optional basis). -/
structure ModelSpec where
  method : LC
  basis : Option LC := none
deriving DecidableEq, Repr

/-- The `Provenance` value record. -/
structure ProvenanceM where
  program : LC
  programVersion : Option LC := none
  wallTime : Option ℚ := none
  hostname : Option LC := none
deriving DecidableEq, Repr

/-- The closed `Inputs` union: `FileInput`, `CalcInput`, `CompositeCalcInput`
(keywords are carried as an opaque association list). -/
inductive InputVal where
  | fileInput (files : FilesMap) (cmdlineArgs : List LC)
  | calcInput (files : FilesMap) (keywords : List (LC × LC)) (model : ModelSpec)
      (struct : PyStructure) (calctype : PyCalcType)
  | compositeCalcInput (files : FilesMap) (keywords : List (LC × LC))
      (model : ModelSpec) (struct : PyStructure) (calctype : PyCalcType)
      (subprogram : LC)
deriving DecidableEq, Repr

/-- `getattr(input_data, "calctype")`; `none` models the `AttributeError`
raised for a `FileInput`. -/
def inputCalcType : InputVal → Option PyCalcType
  | .fileInput _ _ => none
  | .calcInput _ _ _ _ ct => some ct
  | .compositeCalcInput _ _ _ _ ct _ => some ct

/-- The `SinglePointData` model (stored, already-validated form; auxiliary
wavefunction/frequency fields that no claim touches are omitted). -/
structure SinglePointDataM where
  files : FilesMap
  energy : Option ℚ
  gradient : Option (List (ℚ × ℚ × ℚ))
  hessian : Option (List (List ℚ))
  nuclearRepulsionEnergy : Option ℚ := none
deriving DecidableEq, Repr

/-- Split a list into consecutive chunks of length `n`. -/
def chunkList (n : Nat) (l : List ℚ) : List (List ℚ) :=
  if _h : l = [] ∨ n = 0 then [] else l.take n :: chunkList n (l.drop n)
termination_by l.length
decreasing_by
  rcases l with _ | ⟨a, l⟩
  · simp_all
  · simp only [List.length_drop, List.length_cons]
    omega

/-- `SinglePointData` construction: `_validate_gradient_shape` (reshape to
`(-1, 3)`), `_validate_hessian_shape` (reshape to a square of side
`int(sqrt(size))`), and the `_ensure_results` model validator requiring at
least one of energy/gradient/hessian. -/
def mkSinglePointData (files : FilesMap) (energy : Option ℚ)
    (gradient : Option (List ℚ)) (hessian : Option (List ℚ))
    (nre : Option ℚ) : Except LC SinglePointDataM :=
  match
    (match gradient with
     | none => Except.ok none
     | some g =>
       if g.length % 3 = 0 then .ok (some (group3 g))
       else .error "ValueError: cannot reshape array".data) with
  | .error e => .error e
  | .ok grad =>
  match
    (match hessian with
     | none => Except.ok none
     | some hs =>
       if Nat.sqrt hs.length * Nat.sqrt hs.length = hs.length then
         .ok (some (chunkList (Nat.sqrt hs.length) hs))
       else .error "ValueError: cannot reshape array".data) with
  | .error e => .error e
  | .ok hess =>
  if energy = none ∧ grad = none ∧ hess = none then
    .error "SinglePointResults requires either an energy, gradient, or hessian value.".data
  else .ok ⟨files, energy, grad, hess, nre⟩

/-- `getattr(data, calctype.value) is None` for a `SinglePointData`; the error
models the `AttributeError` raised when `calctype` names no field of the
model (e.g. `optimization`). -/
def spGetAttrIsNone (d : SinglePointDataM) : PyCalcType → Except LC Bool
  | .energy => .ok d.energy.isNone
  | .gradient => .ok d.gradient.isNone
  | .hessian => .ok d.hessian.isNone
  | _ => .error "AttributeError: SinglePointData has no such attribute".data

/-- The `OptimizationData` model.  Its `trajectory` field (a list of nested
`Results` values) is not constructed or inspected by any claim under study and
is omitted from the model. -/
structure OptimizationDataM where
  files : FilesMap
deriving DecidableEq, Repr

/-- The `ConformerSearchData` model (stored, already-validated form). -/
structure ConformerSearchDataM where
  files : FilesMap
  conformers : List PyStructure
  conformerEnergies : List ℚ
  rotamers : List PyStructure
  rotamerEnergies : List ℚ
deriving DecidableEq, Repr

/-- The `_sort_by_energy` reordering: `np.argsort(energies)` followed by fancy
indexing of both lists, i.e. both lists reordered in step, ascending by
energy.  (`np.argsort`'s tie order is modelled by a stable sort of the
energy/structure pairs; the validated properties — ascending energies and an
in-step permutation — do not depend on how ties are broken.) -/
def sortByEnergy (energies : List ℚ) (structures : List PyStructure) :
    List ℚ × List PyStructure :=
  (((energies.zip structures).mergeSort (fun a b => a.1 ≤ b.1)).map Prod.fst,
    ((energies.zip structures).mergeSort (fun a b => a.1 ≤ b.1)).map Prod.snd)

/-- `ConformerSearchData` construction: the `_energies_size` model validator
(a non-empty energy list must match its structure list in length) followed by
`_sort_by_energy` (each non-empty energy list sorted ascending together with
its structure list). -/
def mkConformerSearchData (files : FilesMap) (conformers : List PyStructure)
    (cE : List ℚ) (rotamers : List PyStructure) (rE : List ℚ) :
    Except LC ConformerSearchDataM :=
  if cE.length ≠ 0 ∧ cE.length ≠ conformers.length then
    .error "The number of conformer energies must match the number of conformers.".data
  else if rE.length ≠ 0 ∧ rE.length ≠ rotamers.length then
    .error "The number of rotamer energies must match the number of rotamers.".data
  else
    let c := if cE.length ≠ 0 then sortByEnergy cE conformers else (cE, conformers)
    let r := if rE.length ≠ 0 then sortByEnergy rE rotamers else (rE, rotamers)
    .ok ⟨files, c.2, c.1, r.2, r.1⟩

/-- The closed `Data` union: `Files`, `SinglePointData`, `OptimizationData`,
`ConformerSearchData`. -/
inductive DataVal where
  | files (m : FilesMap)
  | singlePoint (d : SinglePointDataM)
  | optimization (d : OptimizationDataM)
  | conformerSearch (d : ConformerSearchDataM)
deriving DecidableEq, Repr

/-- The runtime class of an `Inputs` value. -/
inductive InputTag where
  | fileInputT
  | calcInputT
  | compositeCalcInputT
deriving DecidableEq, Repr

/-- The runtime class of a `Data` value. -/
inductive DataTag where
  | filesT
  | singlePointT
  | optimizationT
  | conformerSearchT
deriving DecidableEq, Repr

/-- `type(input_data)`. -/
def tagOfInput : InputVal → InputTag
  | .fileInput _ _ => .fileInputT
  | .calcInput _ _ _ _ _ => .calcInputT
  | .compositeCalcInput _ _ _ _ _ _ => .compositeCalcInputT

/-- `type(data)`. -/
def tagOfData : DataVal → DataTag
  | .files _ => .filesT
  | .singlePoint _ => .singlePointT
  | .optimization _ => .optimizationT
  | .conformerSearch _ => .conformerSearchT

/-- The effective runtime class of a `Results` object: the unparameterized
generic `Results`, or a concrete parameterization `Results[I, D]`. -/
inductive EffType where
  | generic
  | conc (it : InputTag) (dt : DataTag)
deriving DecidableEq, Repr

/-- A constructed `Results` object.  `etype` is its effective runtime class
(`self.__class__`), reassigned by `model_post_init`. -/
structure ResultsObj where
  etype : EffType
  inputData : InputVal
  success : Bool
  data : DataVal
  logs : Option LC
  traceback : Option LC
  provenance : ProvenanceM
deriving DecidableEq, Repr

/-- `Results.model_post_init`: if the object's class is still the generic
`Results`, reassign it to the concrete pairing determined by the runtime types
of `input_data` and `data`; otherwise (the explicitly parameterized path) do
nothing. -/
def applyPostInit (o : ResultsObj) : ResultsObj :=
  if o.etype = .generic then
    { o with etype := .conc (tagOfInput o.inputData) (tagOfData o.data) }
  else o

/-- `isinstance(input_data, ProgramInput)`.  In this source snapshot
`ProgramInput` is a deprecated subclass of `CalcInput`; instances of the three
current input classes are never instances of that subclass, so the test is
false for every value representable in this model. -/
def isinstanceProgramInput (_i : InputVal) : Bool := false

/-- `Results.ensure_traceback_on_failure`: a failed calculation must carry a
traceback — the source asserts only `traceback is not None`. -/
def ensureTracebackOnFailure (o : ResultsObj) : Except LC ResultsObj :=
  if o.success = false ∧ o.traceback = none then
    .error "A traceback must be provided for failed calculations.".data
  else .ok o

/-- `Results._ensure_structured_results_on_success`: for a successful
calculation whose input passes the `isinstance(..., ProgramInput)` test, the
data must not be exactly the `Files` class. -/
def ensureStructuredResultsOnSuccess (o : ResultsObj) : Except LC ResultsObj :=
  if o.success = true ∧ isinstanceProgramInput o.inputData then
    match o.data with
    | .files _ =>
      .error "Structured results must be provided for successful, non FileInput calculations.".data
    | _ => .ok o
  else .ok o

/-- `Results.ensure_primary_result_on_success`: when the data is exactly a
`SinglePointData`, the field named by `input_data.calctype` must be non-null. -/
def ensurePrimaryResultOnSuccess (o : ResultsObj) : Except LC ResultsObj :=
  match o.data with
  | .singlePoint d =>
    match inputCalcType o.inputData with
    | none => .error "AttributeError: input_data has no attribute calctype".data
    | some ct =>
      match spGetAttrIsNone d ct with
      | .error e => .error e
      | .ok isNone =>
        if isNone then
          .error ("Missing the primary result: ".data ++ calcTypeValue ct ++ ".".data)
        else .ok o
  | _ => .ok o

/-- `Results` construction from already-validated field values: the
`model_post_init` specialization step and the three mode="after" model
validators in definition order. -/
def mkResults (cls : EffType) (inputData : InputVal) (success : Bool)
    (data : DataVal) (logs traceback : Option LC) (prov : ProvenanceM) :
    Except LC ResultsObj :=
  match ensureTracebackOnFailure
      (applyPostInit ⟨cls, inputData, success, data, logs, traceback, prov⟩) with
  | .error e => .error e
  | .ok o1 =>
    match ensureStructuredResultsOnSuccess o1 with
    | .error e => .error e
    | .ok o2 => ensurePrimaryResultOnSuccess o2

/-- The `data` entry of a raw `Results` payload as seen by the
`_backwards_compatibility` rewrite: either a plain mapping (of which only the
presence and value of its `"files"` entry matter to the rewrite) or an
already-constructed Data model instance carrying its mutable `files` dict. -/
inductive PayloadData where
  | pdict (files : Option FilesMap)
  | pmodel (files : FilesMap) (tag : DataTag)
deriving DecidableEq, Repr

/-- A raw `Results` payload restricted to the keys the
`_backwards_compatibility` rewrite reads or writes; a field of `none` means
the key is absent from the dict.  The remaining payload entries (`input_data`,
`success`, `provenance`, ...) are untouched by the rewrite. -/
structure Payload where
  stdout : Option LC := none
  logs : Option LC := none
  results : Option PayloadData := none
  data : Option PayloadData := none
  files : Option FilesMap := none
deriving DecidableEq, Repr

/-- `Results._backwards_compatibility` (the mode="before" rewrite): rename
`stdout` to `logs` (unless `logs` is already present, in which case `stdout`
is left in place), move a `results` mapping to `data`, and merge a top-level
`files` map into the data's file map.  Returns the rewritten payload together
with the `FutureWarning` messages emitted; the error models the `KeyError`
raised when `files` is present but `data` is absent. -/
def backwardsCompat (p : Payload) : Except LC (Payload × List LC) :=
  let step1 : Payload × List LC :=
    match p.stdout with
    | none => (p, [])
    | some s =>
      let ws := ["The stdout attribute has been renamed to logs".data]
      match p.logs with
      | none => ({ p with logs := some s, stdout := none }, ws)
      | some _ => (p, ws)
  let p1 := step1.1
  let step2 : Payload × List LC :=
    match p1.results with
    | none => (p1, step1.2)
    | some r =>
      let ws := step1.2 ++ ["The results attribute has been renamed to data".data]
      match r with
      | .pdict f => ({ p1 with data := some (.pdict f), results := none }, ws)
      | .pmodel _ _ => (p1, ws)
  let p2 := step2.1
  match p2.files with
  | none => .ok (p2, step2.2)
  | some fm =>
    let ws := step2.2 ++ ["The files attribute has been moved to data.files".data]
    match p2.data with
    | none => .error "KeyError: data".data
    | some (.pdict (some df)) =>
      .ok ({ p2 with data := some (.pdict (some (dictMerge df fm))), files := none }, ws)
    | some (.pdict none) =>
      -- `payload["data"].get("files", {})` returns a fresh dict; the update
      -- mutates that fresh dict, which is never written back into the
      -- payload: the popped top-level files are dropped.
      .ok ({ p2 with files := none }, ws)
    | some (.pmodel mf tag) =>
      .ok ({ p2 with data := some (.pmodel (dictMerge mf fm) tag), files := none }, ws)

/-- The `__name__` of the input classes. -/
def inputTagName : InputTag → LC
  | .fileInputT => "FileInput".data
  | .calcInputT => "CalcInput".data
  | .compositeCalcInputT => "CompositeCalcInput".data

/-- The `__name__` of the data classes. -/
def dataTagName : DataTag → LC
  | .filesT => "Files".data
  | .singlePointT => "SinglePointData".data
  | .optimizationT => "OptimizationData".data
  | .conformerSearchT => "ConformerSearchData".data

/-- `product(get_args(Inputs), get_args(Data))`. -/
def allPairings : List (InputTag × DataTag) :=
  [InputTag.fileInputT, InputTag.calcInputT, InputTag.compositeCalcInputT].flatMap
    (fun it =>
      [DataTag.filesT, DataTag.singlePointT, DataTag.optimizationT,
        DataTag.conformerSearchT].map (fun dt => (it, dt)))

/-- `ClassType[spec_type, data_type].__name__`. -/
def pairingName (clsName : LC) (it : InputTag) (dt : DataTag) : LC :=
  clsName ++ "[".data ++ inputTagName it ++ ", ".data ++ dataTagName dt ++ "]".data

/-- The ordered concrete class names produced by
`_register_program_output_classes` (both `Results` and the deprecated
`ProgramOutput` aliases). -/
def registrationNames : List LC :=
  allPairings.flatMap
    (fun p => ["Results".data, "ProgramOutput".data].map
      (fun cn => pairingName cn p.1 p.2))

/-- Add each name to the module registry unless it is already present
(`if name not in this_module.__dict__: setattr(...)`). -/
def registerNames (reg : List LC) (names : List LC) : List LC :=
  names.foldl (fun r n => if r.contains n then r else r ++ [n]) reg

/-- `_register_program_output_classes`: register every concrete pairing. -/
def registerClasses (reg : List LC) : List LC :=
  registerNames reg registrationNames

/-- A parse block of a multi-structure stream, paired with the run of blank
separator lines that follows it, as consumed by one iteration of
`from_xyz_multi`'s loop: the block's first line holds its atom count `n`, the
block spans exactly `n + 2` newline-free lines that `from_xyz` accepts
(producing `S`), and every line of the trailing separator is blank. -/
def BlockSepWF (ca ma : Option Int) (p : List LC × List LC)
    (S : PyStructure) : Prop :=
  (∃ n : Nat, pyInt p.1.headI = some ((n : Nat) : Int) ∧ p.1.length = n + 2)
  ∧ (∀ l ∈ p.1, ∀ c ∈ l, ¬c = '\n')
  ∧ fromXyzLines p.1 ca ma = .ok S
  ∧ (∀ l ∈ p.2, pyStrip l = [])

/-- A concrete one-atom XYZ block (atom count, comment, one coordinate row). -/
def c8Block : List LC := ["1".data, "cmt".data, "H 0.0 0.0 0.0".data]

/-- The structure parsed from `c8Block`. -/
def c8S : PyStructure := ⟨["H".data], [(0, 0, 0)], 0, 1, [], ["cmt".data]⟩

/-- The value a geometry component takes after the render/parse/convert
roundtrip: render at precision `p` in Angstrom, parse, divide by
`BOHR_TO_ANGSTROM`. -/
def roundCoord (p : Nat) (g : ℚ) : ℚ :=
  ((round (g * BOHR_TO_ANGSTROM * (10 : ℚ) ^ p) : ℤ) : ℚ) / (10 : ℚ) ^ p
    / BOHR_TO_ANGSTROM

/-- A structure whose `smiles` identifier value embeds whitespace and a
`qcio_charge=` token. -/
def c1S : PyStructure :=
  ⟨["H".data], [(0, 0, 0)], 0, 1, [("smiles".data, "a qcio_charge=9".data)], []⟩

/-- A concrete well-formed two-atom structure. -/
def c1W : PyStructure :=
  ⟨["H".data, "O".data], [(0, 0, 0), (1, 1, 1)], -1, 2,
   [("smiles".data, "O".data)], ["note".data]⟩

set_option maxRecDepth 10000 in

-- Decidable equality for `Except`, to evaluate embedded operations at
-- concrete inputs.
deriving instance DecidableEq for Except

/-! ## Supporting lemmas: splitting, joining, stripping -/

theorem pySplitOnP_cons (p : Char → Bool) (c : Char) (cs : LC) :
    pySplitOnP p (c :: cs) =
      if p c then [] :: pySplitOnP p cs
      else
        match pySplitOnP p cs with
        | [] => [[c]]
        | h :: t => (c :: h) :: t := rfl

theorem pySplitOnP_ne_nil (p : Char → Bool) (s : LC) : pySplitOnP p s ≠ [] := by
  cases s with
  | nil => simp [pySplitOnP]
  | cons c cs =>
    rw [pySplitOnP_cons]
    split
    · simp
    · split <;> simp

theorem pySplitOnP_nosep (p : Char → Bool) (w : LC) (hw : ∀ c ∈ w, p c = false) :
    pySplitOnP p w = [w] := by
  induction w with
  | nil => rfl
  | cons c cs ih =>
    have hc : p c = false := hw c (by simp)
    have ih' := ih (fun x hx => hw x (by simp [hx]))
    rw [pySplitOnP_cons, if_neg (by simp [hc]), ih']

theorem pySplitOnP_append_sep (p : Char → Bool) (w rest : LC) (c0 : Char)
    (hw : ∀ c ∈ w, p c = false) (hc : p c0 = true) :
    pySplitOnP p (w ++ c0 :: rest) = w :: pySplitOnP p rest := by
  induction w with
  | nil => simp [pySplitOnP_cons, hc]
  | cons c cs ih =>
    have h1 : p c = false := hw c (by simp)
    rw [List.cons_append, pySplitOnP_cons, if_neg (by simp [h1]),
      ih (fun x hx => hw x (by simp [hx]))]

theorem pySplitOnP_append_last (p : Char → Bool) (c0 : Char) (hc : p c0 = true)
    (l : LC) : pySplitOnP p (l ++ [c0]) = pySplitOnP p l ++ [[]] := by
  induction l with
  | nil => simp [pySplitOnP_cons, hc, pySplitOnP]
  | cons c cs ih =>
    cases hpc : p c with
    | true => simp [pySplitOnP_cons, hpc, ih]
    | false =>
      rw [List.cons_append, pySplitOnP_cons, if_neg (by simp [hpc]), ih,
        pySplitOnP_cons, if_neg (by simp [hpc])]
      cases hq : pySplitOnP p cs with
      | nil => exact absurd hq (pySplitOnP_ne_nil p cs)
      | cons h t => simp

theorem pySplitWs_cons_space (c : Char) (hc : pyIsSpace c = true) (s : LC) :
    pySplitWs (c :: s) = pySplitWs s := by
  simp [pySplitWs, pySplitOnP_cons, hc]

theorem pySplitWs_append_last_space (c : Char) (hc : pyIsSpace c = true) (l : LC) :
    pySplitWs (l ++ [c]) = pySplitWs l := by
  simp [pySplitWs, pySplitOnP_append_last pyIsSpace c hc, List.filter_append]

theorem pySplitWs_word (w : LC) (hw : ∀ c ∈ w, pyIsSpace c = false) (hne : w ≠ []) :
    pySplitWs w = [w] := by
  simp [pySplitWs, pySplitOnP_nosep pyIsSpace w hw, List.filter, hne]

theorem pySplitWs_word_append (w rest : LC) (c0 : Char)
    (hw : ∀ c ∈ w, pyIsSpace c = false) (hne : w ≠ []) (hc : pyIsSpace c0 = true) :
    pySplitWs (w ++ c0 :: rest) = w :: pySplitWs rest := by
  simp [pySplitWs, pySplitOnP_append_sep pyIsSpace w rest c0 hw hc, List.filter, hne]

theorem dropWhile_eq_self_of (p : α → Bool) (l : List α) (h : ∀ c ∈ l, p c = false) :
    l.dropWhile p = l := by
  cases l with
  | nil => rfl
  | cons c cs => rw [List.dropWhile_cons, if_neg (by simp [h c (by simp)])]

theorem pyStrip_eq_self (s : LC) (h : ∀ c ∈ s, pyIsSpace c = false) : pyStrip s = s := by
  unfold pyStrip
  rw [dropWhile_eq_self_of _ _ h, dropWhile_eq_self_of, List.reverse_reverse]
  intro c hc
  exact h c (by simpa using hc)

theorem pySplitWs_dropWhile (s : LC) :
    pySplitWs (s.dropWhile pyIsSpace) = pySplitWs s := by
  induction s with
  | nil => rfl
  | cons c cs ih =>
    cases hc : pyIsSpace c with
    | false => rw [List.dropWhile_cons, if_neg (by simp [hc])]
    | true =>
      rw [List.dropWhile_cons, if_pos (by simp [hc]), pySplitWs_cons_space c hc]
      exact ih

theorem pySplitWs_stripEnd (s : LC) :
    pySplitWs ((s.reverse.dropWhile pyIsSpace).reverse) = pySplitWs s := by
  induction s using List.reverseRecOn with
  | nil => rfl
  | append_singleton l c ih =>
    cases hc : pyIsSpace c with
    | false =>
      rw [List.reverse_append, List.reverse_singleton, List.singleton_append,
        List.dropWhile_cons, if_neg (by simp [hc])]
      simp
    | true =>
      rw [List.reverse_append, List.reverse_singleton, List.singleton_append,
        List.dropWhile_cons, if_pos (by simp [hc]), pySplitWs_append_last_space c hc]
      exact ih

theorem pySplitWs_pyStrip (s : LC) : pySplitWs (pyStrip s) = pySplitWs s := by
  unfold pyStrip
  rw [pySplitWs_stripEnd (s.dropWhile pyIsSpace), pySplitWs_dropWhile]

theorem joinSep_cons (sep l : LC) (ls : List LC) (h : ls ≠ []) :
    joinSep sep (l :: ls) = l ++ sep ++ joinSep sep ls := by
  cases ls with
  | nil => exact absurd rfl h
  | cons a as => rfl

theorem splitLines_joinSep (ls : List LC) (h0 : ls ≠ [])
    (hnl : ∀ l ∈ ls, ∀ c ∈ l, ¬c = '\n') :
    splitLines (joinSep ['\n'] ls) = ls := by
  induction ls with
  | nil => exact absurd rfl h0
  | cons l ls ih =>
    cases ls with
    | nil =>
      show pySplitOnP _ (joinSep ['\n'] [l]) = [l]
      have hj : joinSep ['\n'] [l] = l := rfl
      rw [hj]
      exact pySplitOnP_nosep _ l (fun c hc => by simp [hnl l (by simp) c hc])
    | cons l2 ls2 =>
      rw [joinSep_cons _ _ _ (by simp)]
      have hassoc : l ++ ['\n'] ++ joinSep ['\n'] (l2 :: ls2) =
          l ++ '\n' :: joinSep ['\n'] (l2 :: ls2) := by simp
      rw [hassoc]
      show pySplitOnP _ _ = _
      rw [pySplitOnP_append_sep _ l _ '\n'
        (fun c hc => by simp [hnl l (by simp) c hc]) (by simp)]
      have := ih (by simp) (fun x hx c hc => hnl x (by simp [hx]) c hc)
      rw [show pySplitOnP (fun c => decide (c = '\n')) (joinSep ['\n'] (l2 :: ls2)) =
        splitLines (joinSep ['\n'] (l2 :: ls2)) from rfl, this]

/-! ## Supporting lemmas: decimal rendering and parsing -/

theorem valRev_natDigitsRev (n : Nat) : valRev (natDigitsRev n) = n := by
  induction n using Nat.strong_induction_on with
  | _ n ih =>
    rw [natDigitsRev]
    split
    · simp [valRev, *]
    · rename_i h
      rw [valRev, ih (n / 10) (Nat.div_lt_self (Nat.pos_of_ne_zero h) (by norm_num))]
      omega

theorem natDigitsRev_lt (n : Nat) : ∀ d ∈ natDigitsRev n, d < 10 := by
  induction n using Nat.strong_induction_on with
  | _ n ih =>
    rw [natDigitsRev]
    split
    · simp
    · rename_i h
      intro d hd
      rcases List.mem_cons.mp hd with h1 | h2
      · subst h1
        exact Nat.mod_lt _ (by norm_num)
      · exact ih (n / 10) (Nat.div_lt_self (Nat.pos_of_ne_zero h) (by norm_num)) d h2

theorem natDigitsRev_length_le (k : Nat) : ∀ n, n < 10 ^ k → (natDigitsRev n).length ≤ k := by
  induction k with
  | zero =>
    intro n hn
    interval_cases n
    simp [natDigitsRev]
  | succ k ih =>
    intro n hn
    rw [natDigitsRev]
    split
    · simp
    · rename_i h
      simp only [List.length_cons]
      have : n / 10 < 10 ^ k := by
        rw [Nat.div_lt_iff_lt_mul (by norm_num)]
        calc n < 10 ^ (k + 1) := hn
        _ = 10 ^ k * 10 := by ring
      exact Nat.succ_le_succ (ih (n / 10) this)

theorem digitChar_isDigit (d : Nat) (hd : d < 10) : (digitChar d).isDigit = true := by
  interval_cases d <;> decide

theorem digitChar_toNat (d : Nat) (hd : d < 10) : (digitChar d).toNat - 48 = d := by
  interval_cases d <;> decide

theorem digitChar_not_space (d : Nat) (hd : d < 10) : pyIsSpace (digitChar d) = false := by
  interval_cases d <;> decide

theorem digitChar_ne (d : Nat) (hd : d < 10) (c : Char) (hc : c.isDigit = false) :
    digitChar d ≠ c := by
  intro h
  rw [← h] at hc
  rw [digitChar_isDigit d hd] at hc
  exact absurd hc (by simp)

theorem foldl_digitChars (L : List Nat) (hL : ∀ d ∈ L, d < 10) (a : Nat) :
    List.foldl (fun a c => 10 * a + (c.toNat - 48)) a (L.reverse.map digitChar) =
      a * 10 ^ L.length + valRev L := by
  induction L generalizing a with
  | nil => simp [valRev]
  | cons d ds ih =>
    have hd : d < 10 := hL d (by simp)
    rw [List.reverse_cons, List.map_append, List.foldl_append]
    rw [ih (fun x hx => hL x (by simp [hx]))]
    simp only [List.map_cons, List.map_nil, List.foldl_cons, List.foldl_nil,
      digitChar_toNat d hd, valRev, List.length_cons]
    ring

theorem parseNatDigits_natToChars (n : Nat) : parseNatDigits (natToChars n) = some n := by
  unfold natToChars
  split
  · rename_i h
    subst h
    rfl
  · rename_i h
    have hdig : ∀ c ∈ (natDigitsRev n).reverse.map digitChar, c.isDigit = true := by
      intro c hc
      rcases List.mem_map.mp hc with ⟨d, hd, rfl⟩
      exact digitChar_isDigit d (natDigitsRev_lt n d (List.mem_reverse.mp hd))
    have hne : (natDigitsRev n).reverse.map digitChar ≠ [] := by
      simp only [ne_eq, List.map_eq_nil_iff, List.reverse_eq_nil_iff]
      intro hcon
      have := valRev_natDigitsRev n
      rw [hcon] at this
      exact h this.symm
    unfold parseNatDigits
    rw [if_pos ⟨hne, List.all_eq_true.mpr (fun c hc => hdig c hc)⟩]
    rw [foldl_digitChars (natDigitsRev n) (natDigitsRev_lt n) 0]
    simp [valRev_natDigitsRev n]

theorem natToChars_all_digits (n : Nat) : ∀ c ∈ natToChars n, c.isDigit = true := by
  unfold natToChars
  split
  · intro c hc
    simp only [List.mem_singleton] at hc
    subst hc
    decide
  · intro c hc
    rcases List.mem_map.mp hc with ⟨d, hd, rfl⟩
    exact digitChar_isDigit d (natDigitsRev_lt n d (List.mem_reverse.mp hd))

theorem natToChars_ne_nil (n : Nat) : natToChars n ≠ [] := by
  unfold natToChars
  split
  · simp
  · rename_i h
    simp only [ne_eq, List.map_eq_nil_iff, List.reverse_eq_nil_iff]
    intro hcon
    have := valRev_natDigitsRev n
    rw [hcon] at this
    exact h this.symm

theorem isDigit_not_space (c : Char) (h : c.isDigit = true) : pyIsSpace c = false := by
  by_contra hcon
  have hsp : pyIsSpace c = true := by simpa using hcon
  unfold pyIsSpace at hsp
  simp only [Bool.or_eq_true, decide_eq_true_eq] at hsp
  rcases hsp with ((((h1 | h1) | h1) | h1) | h1) | h1 <;> subst h1 <;> revert h <;> decide

theorem digit_ne (c : Char) (h : c.isDigit = true) (c0 : Char) (h0 : c0.isDigit = false) :
    c ≠ c0 := by
  intro e
  subst e
  rw [h] at h0
  simp at h0

theorem pyInt_natToChars (n : Nat) : pyInt (natToChars n) = some (n : Int) := by
  have hall := natToChars_all_digits n
  have hstrip : pyStrip (natToChars n) = natToChars n :=
    pyStrip_eq_self _ (fun c hc => isDigit_not_space c (hall c hc))
  obtain ⟨c, ds, hcds⟩ : ∃ c ds, natToChars n = c :: ds := by
    cases hx : natToChars n with
    | nil => exact absurd hx (natToChars_ne_nil n)
    | cons a l => exact ⟨a, l, rfl⟩
  have hc : c.isDigit = true := hall c (by rw [hcds]; simp)
  unfold pyInt
  rw [hstrip, hcds]
  simp only []
  rw [if_neg (digit_ne c hc '-' (by decide)), if_neg (digit_ne c hc '+' (by decide)),
    ← hcds, parseNatDigits_natToChars]
  rfl

theorem pyInt_intToChars (z : Int) : pyInt (intToChars z) = some z := by
  unfold intToChars
  split
  · rename_i hneg
    have hall := natToChars_all_digits z.natAbs
    have hstrip : pyStrip ('-' :: natToChars z.natAbs) = '-' :: natToChars z.natAbs := by
      apply pyStrip_eq_self
      intro c hc
      rcases List.mem_cons.mp hc with h1 | h2
      · subst h1; decide
      · exact isDigit_not_space c (hall c h2)
    unfold pyInt
    rw [hstrip]
    simp only [parseNatDigits_natToChars]
    have h1 : -((z.natAbs : Int)) = z := by omega
    have h2 : |z| = -z := abs_of_neg hneg
    simp [h1, h2]
  · rename_i hpos
    rw [pyInt_natToChars]
    have : ((z.natAbs : Int)) = z := by omega
    rw [this]

theorem parseNatDigits_some (s : LC) (n : Nat) (h : parseNatDigits s = some n) :
    s ≠ [] ∧ ∀ c ∈ s, c.isDigit = true := by
  unfold parseNatDigits at h
  split at h
  · rename_i hcond
    exact ⟨hcond.1, fun c hc => List.all_eq_true.mp hcond.2 c hc⟩
  · simp at h

theorem foldl_step_zeros (k : Nat) :
    List.foldl (fun a c => 10 * a + (c.toNat - 48)) 0 (List.replicate k '0') = 0 := by
  induction k with
  | zero => rfl
  | succ k ih => simpa [List.replicate_succ] using ih

theorem parseNatDigits_padZeros (p : Nat) (s : LC) (n : Nat)
    (h : parseNatDigits s = some n) : parseNatDigits (padZeros p s) = some n := by
  obtain ⟨hne, hdig⟩ := parseNatDigits_some s n h
  unfold parseNatDigits at h ⊢
  rw [if_pos ⟨hne, List.all_eq_true.mpr hdig⟩] at h
  have hall : (padZeros p s ≠ []) ∧ (padZeros p s).all Char.isDigit = true := by
    constructor
    · simp [padZeros, hne]
    · apply List.all_eq_true.mpr
      intro c hc
      rcases List.mem_append.mp hc with h1 | h2
      · have : c = '0' := List.eq_of_mem_replicate h1
        subst this
        decide
      · exact hdig c h2
  rw [if_pos hall]
  unfold padZeros
  rw [List.foldl_append, foldl_step_zeros]
  exact h

theorem natToChars_length_le (k n : Nat) (h : n < 10 ^ k) (hk : 1 ≤ k) :
    (natToChars n).length ≤ k := by
  unfold natToChars
  split
  · simpa using hk
  · rw [List.length_map, List.length_reverse]
    exact natDigitsRev_length_le k n h

theorem parseUnsignedDec_natToChars (n : Nat) :
    parseUnsignedDec (natToChars n) = some ((n : ℚ)) := by
  unfold parseUnsignedDec
  rw [pySplitOnP_nosep _ (natToChars n)
    (fun c hc => by
      simp only [decide_eq_false_iff_not]
      exact digit_ne c (natToChars_all_digits n c hc) '.' (by decide))]
  simp [parseNatDigits_natToChars]

theorem parseUnsignedDec_dot (ip fp : LC) (i f : Nat)
    (hi : parseNatDigits ip = some i) (hf : parseNatDigits fp = some f) :
    parseUnsignedDec (ip ++ '.' :: fp) = some ((i : ℚ) + (f : ℚ) / 10 ^ fp.length) := by
  obtain ⟨hine, hidig⟩ := parseNatDigits_some ip i hi
  obtain ⟨hfne, hfdig⟩ := parseNatDigits_some fp f hf
  unfold parseUnsignedDec
  rw [pySplitOnP_append_sep _ ip fp '.'
    (fun c hc => by
      simp only [decide_eq_false_iff_not]
      exact digit_ne c (hidig c hc) '.' (by decide)) (by simp)]
  rw [pySplitOnP_nosep _ fp
    (fun c hc => by
      simp only [decide_eq_false_iff_not]
      exact digit_ne c (hfdig c hc) '.' (by decide))]
  simp only [if_neg hine, if_neg hfne, hi, hf]
  rw [if_neg (by intro hcon; exact hine hcon.1)]

theorem padZeros_all_digits (p : Nat) (s : LC) (h : ∀ c ∈ s, c.isDigit = true) :
    ∀ c ∈ padZeros p s, c.isDigit = true := by
  intro c hc
  rcases List.mem_append.mp hc with h1 | h2
  · have : c = '0' := List.eq_of_mem_replicate h1
    subst this
    decide
  · exact h c h2

theorem pyFloat_renderFixed (p : Nat) (q : ℚ) :
    pyFloat (renderFixed p q) =
      some (((round (q * (10 : ℚ) ^ p) : ℤ) : ℚ) / (10 : ℚ) ^ p) := by
  set m : ℤ := round (q * (10 : ℚ) ^ p) with hm
  set body : LC :=
    (if p = 0 then natToChars m.natAbs
     else natToChars (m.natAbs / 10 ^ p) ++ '.' ::
       padZeros p (natToChars (m.natAbs % 10 ^ p))) with hbody
  have hrw : renderFixed p q = (if m < 0 then ['-'] else []) ++ body := by
    rw [hbody]
    by_cases hp : p = 0 <;> simp [renderFixed, hp, hm]
  have hbodyParse : parseUnsignedDec body = some ((m.natAbs : ℚ) / (10 : ℚ) ^ p) := by
    rw [hbody]
    by_cases hp : p = 0
    · subst hp
      simp [parseUnsignedDec_natToChars]
    · rw [if_neg hp]
      have hfp := parseNatDigits_padZeros p _ _ (parseNatDigits_natToChars (m.natAbs % 10 ^ p))
      rw [parseUnsignedDec_dot _ _ _ _ (parseNatDigits_natToChars (m.natAbs / 10 ^ p)) hfp]
      have hlen : (padZeros p (natToChars (m.natAbs % 10 ^ p))).length = p := by
        unfold padZeros
        rw [List.length_append, List.length_replicate]
        have hlt : m.natAbs % 10 ^ p < 10 ^ p := Nat.mod_lt _ (by positivity)
        have := natToChars_length_le p (m.natAbs % 10 ^ p) hlt (by omega)
        omega
      rw [hlen]
      congr 1
      have hdm : (10 : ℕ) ^ p * (m.natAbs / 10 ^ p) + m.natAbs % 10 ^ p = m.natAbs :=
        Nat.div_add_mod m.natAbs (10 ^ p)
      have hq : ((10 : ℚ)) ^ p * ((m.natAbs / 10 ^ p : ℕ) : ℚ) +
          ((m.natAbs % 10 ^ p : ℕ) : ℚ) = ((m.natAbs : ℕ) : ℚ) := by
        exact_mod_cast hdm
      have h10 : ((10 : ℚ) ^ p) ≠ 0 := by positivity
      field_simp
      linarith [hq]
  have hbodyDigitsDot : ∀ c ∈ body, c.isDigit = true ∨ c = '.' := by
    rw [hbody]
    by_cases hp : p = 0
    · rw [if_pos hp]
      intro c hc
      exact Or.inl (natToChars_all_digits _ c hc)
    · rw [if_neg hp]
      intro c hc
      rcases List.mem_append.mp hc with h1 | h2
      · exact Or.inl (natToChars_all_digits _ c h1)
      · rcases List.mem_cons.mp h2 with h3 | h4
        · exact Or.inr h3
        · exact Or.inl (padZeros_all_digits p _ (natToChars_all_digits _) c h4)
  have hbodyNoSpace : ∀ c ∈ body, pyIsSpace c = false := by
    intro c hc
    rcases hbodyDigitsDot c hc with h1 | h1
    · exact isDigit_not_space c h1
    · subst h1
      decide
  have hbodyNe : body ≠ [] := by
    rw [hbody]
    by_cases hp : p = 0
    · rw [if_pos hp]
      exact natToChars_ne_nil _
    · rw [if_neg hp]
      intro hcon
      exact natToChars_ne_nil _ (List.append_eq_nil.mp hcon).1
  rw [hrw]
  by_cases hneg : m < 0
  · rw [if_pos hneg]
    have hstrip : pyStrip ('-' :: body) = '-' :: body := by
      apply pyStrip_eq_self
      intro c hc
      rcases List.mem_cons.mp hc with h1 | h2
      · subst h1; decide
      · exact hbodyNoSpace c h2
    show pyFloat ('-' :: body) = _
    unfold pyFloat
    rw [hstrip]
    have hmq : ((m.natAbs : ℚ)) = -(m : ℚ) := by
      rw [Int.cast_natAbs]
      exact_mod_cast abs_of_neg hneg
    simp [hbodyParse, hmq, neg_div]
  · rw [if_neg hneg, List.nil_append]
    obtain ⟨c, ds, hcds⟩ : ∃ c ds, body = c :: ds := by
      cases hx : body with
      | nil => exact absurd hx hbodyNe
      | cons a l => exact ⟨a, l, rfl⟩
    have hcd : c.isDigit = true ∨ c = '.' := hbodyDigitsDot c (by rw [hcds]; simp)
    have hcdash : ¬(c = '-') := by
      rcases hcd with h1 | h1
      · exact digit_ne c h1 '-' (by decide)
      · subst h1; decide
    have hcplus : ¬(c = '+') := by
      rcases hcd with h1 | h1
      · exact digit_ne c h1 '+' (by decide)
      · subst h1; decide
    have hstrip : pyStrip body = body := pyStrip_eq_self body hbodyNoSpace
    unfold pyFloat
    rw [hstrip, hcds]
    simp only [if_neg hcdash, if_neg hcplus]
    rw [← hcds, hbodyParse]
    have h2 : ((m.natAbs : ℚ)) = (m : ℚ) := by
      rw [Int.cast_natAbs]
      exact_mod_cast abs_of_nonneg (not_lt.mp hneg)
    rw [h2]

theorem roundtrip_coord_bound (g : ℚ) (p : Nat) :
    |((round (g * BOHR_TO_ANGSTROM * (10 : ℚ) ^ p) : ℤ) : ℚ) / (10 : ℚ) ^ p /
        BOHR_TO_ANGSTROM - g| ≤ 1 / (10 : ℚ) ^ p := by
  have hB : (0 : ℚ) < BOHR_TO_ANGSTROM := by norm_num [BOHR_TO_ANGSTROM]
  have h2B : 1 ≤ 2 * BOHR_TO_ANGSTROM := by norm_num [BOHR_TO_ANGSTROM]
  have habs := abs_sub_round (g * BOHR_TO_ANGSTROM * (10 : ℚ) ^ p)
  have hrw : ((round (g * BOHR_TO_ANGSTROM * (10 : ℚ) ^ p) : ℤ) : ℚ) / (10 : ℚ) ^ p /
      BOHR_TO_ANGSTROM - g =
      (((round (g * BOHR_TO_ANGSTROM * (10 : ℚ) ^ p) : ℤ) : ℚ) -
        g * BOHR_TO_ANGSTROM * (10 : ℚ) ^ p) / ((10 : ℚ) ^ p * BOHR_TO_ANGSTROM) := by
    field_simp
    ring
  have hprod : (0 : ℚ) < (10 : ℚ) ^ p * BOHR_TO_ANGSTROM :=
    mul_pos (by positivity) hB
  rw [hrw, abs_div, abs_of_pos hprod]
  rw [div_le_iff₀ hprod]
  have h12 : |(((round (g * BOHR_TO_ANGSTROM * (10 : ℚ) ^ p) : ℤ) : ℚ)) -
      g * BOHR_TO_ANGSTROM * (10 : ℚ) ^ p| ≤ 1 / 2 := by
    rw [abs_sub_comm]
    exact habs
  refine le_trans h12 ?_
  have hone : (1 : ℚ) / (10 : ℚ) ^ p * ((10 : ℚ) ^ p * BOHR_TO_ANGSTROM) =
      BOHR_TO_ANGSTROM := by
    field_simp
  rw [hone]
  linarith

/-! ## Claim theorems: C10, C5 -/

/-- Claim C10: the guard of `Structure.open` tests truthiness, not presence —
for a non-`.xyz` filepath the call raises if and only if the charge or
multiplicity argument is truthy (non-`None` and nonzero); passing `charge=0` or
`multiplicity=0` with a non-`.xyz` file does not raise, and the values are
silently ignored (the generic path does not receive them). -/
theorem claim_C10 (suffix fileText : LC) (c m : Option Int)
    (hsuf : suffix ≠ ".xyz".data) :
    ((∃ e, structureOpen suffix fileText c m = .error e) ↔
      (truthyOptInt c = true ∨ truthyOptInt m = true))
    ∧ structureOpen suffix fileText (some 0) (some 0) = .ok .viaGeneric
    ∧ (truthyOptInt c = false → truthyOptInt m = false →
        structureOpen suffix fileText c m = structureOpen suffix fileText none none) := by
  have hgen : ∀ c' m', truthyOptInt c' = false → truthyOptInt m' = false →
      structureOpen suffix fileText c' m' = .ok .viaGeneric := by
    intro c' m' hc hm
    unfold structureOpen
    rw [if_neg (by simp [hc, hm]), if_neg hsuf]
  refine ⟨⟨?_, ?_⟩, ?_, ?_⟩
  · rintro ⟨e, he⟩
    by_contra hcon
    push_neg at hcon
    rw [hgen c m (by simpa using hcon.1) (by simpa using hcon.2)] at he
    simp at he
  · intro h
    refine ⟨"Charge and multiplicity can only be set when opening an XYZ file.".data, ?_⟩
    unfold structureOpen
    rw [if_pos ⟨by simpa using h, hsuf⟩]
  · exact hgen (some 0) (some 0) rfl rfl
  · intro hc hm
    rw [hgen c m hc hm, hgen none none rfl rfl]

/-- Witness for C10 at a concrete non-`.xyz` path. -/
theorem claim_C10_witness :
    ".json".data ≠ ".xyz".data ∧
    (((∃ e, structureOpen ".json".data "x".data (some 1) none = .error e) ↔
        (truthyOptInt (some 1) = true ∨ truthyOptInt none = true))
      ∧ structureOpen ".json".data "x".data (some 0) (some 0) = .ok .viaGeneric
      ∧ (truthyOptInt (some 1) = false → truthyOptInt none = false →
          structureOpen ".json".data "x".data (some 1) none =
            structureOpen ".json".data "x".data none none)) :=
  ⟨by decide, claim_C10 ".json".data "x".data (some 1) none (by decide)⟩

/-- Claim C5: runtime specialization is idempotent — `model_post_init`
reassigns the effective type only on the generic path; it is a no-op on an
explicitly parameterized object; applying it twice equals applying it once;
and re-specializing an object reconstructed through the generic path from a
generically-constructed object's fields (a save/open round trip) returns an
object of the identical concrete type, structurally equal to the original. -/
theorem claim_C5 :
    (∀ o : ResultsObj, applyPostInit (applyPostInit o) = applyPostInit o)
    ∧ (∀ (o : ResultsObj) (it : InputTag) (dt : DataTag),
        o.etype = .conc it dt → applyPostInit o = o)
    ∧ (∀ o : ResultsObj, (applyPostInit o).etype ≠ .generic)
    ∧ (∀ o0 : ResultsObj, o0.etype = .generic →
        applyPostInit { applyPostInit o0 with etype := EffType.generic } =
          applyPostInit o0) := by
  refine ⟨?_, ?_, ?_, ?_⟩
  · intro o
    unfold applyPostInit
    split
    · rename_i h
      simp
    · rfl
  · intro o it dt h
    unfold applyPostInit
    rw [if_neg (by rw [h]; simp)]
  · intro o
    unfold applyPostInit
    split
    · simp
    · rename_i h
      exact h
  · intro o0 h0
    unfold applyPostInit
    rw [if_pos h0, if_pos rfl]

/-- Witness for C5: the explicit-path no-op at a concrete object. -/
theorem claim_C5_witness :
    applyPostInit
        ⟨EffType.conc .fileInputT .filesT, .fileInput [] [], true, .files [],
          none, none, ⟨"prog".data, none, none, none⟩⟩ =
      ⟨EffType.conc .fileInputT .filesT, .fileInput [] [], true, .files [],
        none, none, ⟨"prog".data, none, none, none⟩⟩ :=
  claim_C5.2.1
    ⟨EffType.conc .fileInputT .filesT, .fileInput [] [], true, .files [],
      none, none, ⟨"prog".data, none, none, none⟩⟩ .fileInputT .filesT rfl

/-! ## Claim theorems: C3, C7, C4 -/

theorem mkResults_characterization (cls : EffType) (i : InputVal) (succ : Bool)
    (d : DataVal) (logs tb : Option LC) (prov : ProvenanceM) :
    mkResults cls i succ d logs tb prov =
      if succ = false ∧ tb = none then
        .error "A traceback must be provided for failed calculations.".data
      else
        match d with
        | .singlePoint spd =>
          (match inputCalcType i with
           | none => .error "AttributeError: input_data has no attribute calctype".data
           | some ct =>
             match spGetAttrIsNone spd ct with
             | .error e => .error e
             | .ok isNone =>
               if isNone then
                 .error ("Missing the primary result: ".data ++ calcTypeValue ct ++ ".".data)
               else .ok (applyPostInit ⟨cls, i, succ, d, logs, tb, prov⟩))
        | _ => .ok (applyPostInit ⟨cls, i, succ, d, logs, tb, prov⟩) := by
  cases cls <;> cases succ <;> cases tb <;> cases d <;>
    simp [mkResults, applyPostInit, ensureTracebackOnFailure,
      ensureStructuredResultsOnSuccess, ensurePrimaryResultOnSuccess,
      isinstanceProgramInput] <;>
    (try cases inputCalcType i) <;>
    simp <;>
    (rename_i spd ct; cases hx : spGetAttrIsNone spd ct) <;>
    simp [hx] <;>
    (rename_i b; cases b) <;>
    simp

/-- Claim C3 counterexample: the claim says construction raises unless the
traceback is present *and non-empty*, but the source asserts only
`traceback is not None`: a failed Results with an empty-string traceback
constructs successfully. -/
theorem claim_C3_counterexample :
    mkResults EffType.generic (InputVal.fileInput [] []) false (DataVal.files [])
        none (some []) ⟨"prog".data, none, none, none⟩ =
      .ok ⟨EffType.conc .fileInputT .filesT, .fileInput [] [], false, .files [],
        none, some [], ⟨"prog".data, none, none, none⟩⟩ := by
  rw [mkResults_characterization]
  simp [applyPostInit, tagOfInput, tagOfData]

/-- Claim C3 (amended): for every Results construction with
`success == False`, construction raises a ValidationError if and only if the
traceback field is absent (`None`); any supplied traceback — including the
empty string — is accepted, all other invariants holding. -/
theorem claim_C3 (cls : EffType) (i : InputVal) (d : DataVal)
    (logs : Option LC) (prov : ProvenanceM)
    (hprim : ∀ spd, d = DataVal.singlePoint spd →
      ∃ ct, inputCalcType i = some ct ∧ spGetAttrIsNone spd ct = Except.ok false) :
    (mkResults cls i false d logs none prov =
      .error "A traceback must be provided for failed calculations.".data)
    ∧ (∀ s : LC, ∃ o, mkResults cls i false d logs (some s) prov = .ok o) := by
  constructor
  · rw [mkResults_characterization]
    simp
  · intro s
    rw [mkResults_characterization]
    rw [if_neg (by simp)]
    cases hd : d with
    | singlePoint spd =>
      obtain ⟨ct, hct, hnone⟩ := hprim spd hd
      simp [hct, hnone]
    | files m => exact ⟨_, rfl⟩
    | optimization od => exact ⟨_, rfl⟩
    | conformerSearch cd => exact ⟨_, rfl⟩

/-- Witness for C3 at concrete inputs. -/
theorem claim_C3_witness :
    (mkResults EffType.generic (InputVal.fileInput [] []) false (DataVal.files [])
        none none ⟨"prog".data, none, none, none⟩ =
      .error "A traceback must be provided for failed calculations.".data)
    ∧ (∀ s : LC, ∃ o, mkResults EffType.generic (InputVal.fileInput [] []) false
        (DataVal.files []) none (some s) ⟨"prog".data, none, none, none⟩ = .ok o) :=
  claim_C3 EffType.generic (InputVal.fileInput [] []) (DataVal.files []) none
    ⟨"prog".data, none, none, none⟩ (fun spd h => by cases h)

/-- Claim C7 (code bug): the legacy `files` rewrite is meant to merge a
top-level file map into the data's file map rather than discard it (the
source comments "This moves files from the top level to the data attribute"),
but when the `data` payload entry is a plain mapping *without* a `"files"`
key, `payload["data"].get("files", {})` returns a fresh dict, the update
mutates only that fresh dict, and the popped top-level files are silently
dropped.  Evaluated at the failing input: a payload with `data = {}` (no files
key) and top-level `files = {"a.txt": "hi"}` rewrites, without raising, to a
payload whose data still has no file map and whose top-level files are gone. -/
theorem claim_C7_code_bug :
    backwardsCompat
        ⟨none, none, none, some (.pdict none),
          some [("a.txt".data, .str "hi".data)]⟩ =
      .ok (⟨none, none, none, some (.pdict none), none⟩,
        ["The files attribute has been moved to data.files".data]) := by
  decide

/-- Claim C4: for a Results whose data is the SinglePoint variant and whose
input names a calctype among energy/gradient/hessian, construction raises a
ValidationError naming the missing primary result exactly when the field named
by `input_data.calctype` is null, and succeeds when that field is non-null;
moreover the concrete scenario `SinglePoint(energy=None)` (no gradient or
hessian either) already fails SinglePointData validation, so
`Results(success=True, input_data=Calculation(calctype="energy"),
data=SinglePoint(energy=None))` raises a ValidationError. -/
theorem claim_C4 (cls : EffType) (files : FilesMap) (kw : List (LC × LC))
    (model : ModelSpec) (struct : PyStructure) (ct : PyCalcType)
    (spd : SinglePointDataM) (logs tb : Option LC) (prov : ProvenanceM)
    (hct : ct = .energy ∨ ct = .gradient ∨ ct = .hessian) :
    (spGetAttrIsNone spd ct = .ok true →
      mkResults cls (InputVal.calcInput files kw model struct ct) true
          (DataVal.singlePoint spd) logs tb prov =
        .error ("Missing the primary result: ".data ++ calcTypeValue ct ++ ".".data))
    ∧ (spGetAttrIsNone spd ct = .ok false →
      ∃ o, mkResults cls (InputVal.calcInput files kw model struct ct) true
          (DataVal.singlePoint spd) logs tb prov = .ok o)
    ∧ mkSinglePointData [] none none none none =
        .error "SinglePointResults requires either an energy, gradient, or hessian value.".data := by
  refine ⟨?_, ?_, by decide⟩
  · intro hnone
    rw [mkResults_characterization]
    rw [if_neg (by simp)]
    simp [inputCalcType, hnone]
  · intro hsome
    rw [mkResults_characterization]
    rw [if_neg (by simp)]
    simp [inputCalcType, hsome]

/-- Witness for C4 at a concrete energy calculation whose SinglePoint data has
a gradient but a null energy. -/
theorem claim_C4_witness :
    ((spGetAttrIsNone ⟨[], none, some [], none, none⟩ PyCalcType.energy = .ok true →
      mkResults EffType.generic
          (InputVal.calcInput [] [] ⟨"hf".data, none⟩
            ⟨["H".data], [(0, 0, 0)], 0, 1, [], []⟩ PyCalcType.energy) true
          (DataVal.singlePoint ⟨[], none, some [], none, none⟩) none none
          ⟨"prog".data, none, none, none⟩ =
        .error ("Missing the primary result: ".data ++
          calcTypeValue PyCalcType.energy ++ ".".data))
    ∧ (spGetAttrIsNone ⟨[], none, some [], none, none⟩ PyCalcType.energy = .ok false →
      ∃ o, mkResults EffType.generic
          (InputVal.calcInput [] [] ⟨"hf".data, none⟩
            ⟨["H".data], [(0, 0, 0)], 0, 1, [], []⟩ PyCalcType.energy) true
          (DataVal.singlePoint ⟨[], none, some [], none, none⟩) none none
          ⟨"prog".data, none, none, none⟩ = .ok o)
    ∧ mkSinglePointData [] none none none none =
        .error "SinglePointResults requires either an energy, gradient, or hessian value.".data)
    ∧ spGetAttrIsNone ⟨[], none, some [], none, none⟩ PyCalcType.energy = .ok true :=
  ⟨claim_C4 EffType.generic [] [] ⟨"hf".data, none⟩
      ⟨["H".data], [(0, 0, 0)], 0, 1, [], []⟩ PyCalcType.energy
      ⟨[], none, some [], none, none⟩ none none ⟨"prog".data, none, none, none⟩
      (Or.inl rfl), by decide⟩

/-! ## Claim theorem: C6 -/

theorem sortByEnergy_spec (energies : List ℚ) (structures : List PyStructure)
    (hlen : energies.length = structures.length) :
    (sortByEnergy energies structures).1.Sorted (· ≤ ·)
    ∧ ((sortByEnergy energies structures).1.zip
        (sortByEnergy energies structures).2).Perm (energies.zip structures)
    ∧ (sortByEnergy energies structures).2.Perm structures
    ∧ (sortByEnergy energies structures).1.Perm energies := by
  unfold sortByEnergy
  have hperm : ((energies.zip structures).mergeSort
      (fun a b => a.1 ≤ b.1)).Perm (energies.zip structures) :=
    List.mergeSort_perm _ _
  have hsorted := @List.sorted_mergeSort (ℚ × PyStructure)
    (fun a b => decide (a.1 ≤ b.1))
    (fun a b c hab hbc => by
      simp only [decide_eq_true_eq] at *
      exact le_trans hab hbc)
    (fun a b => by
      simp only [Bool.or_eq_true, decide_eq_true_eq]
      exact le_total a.1 b.1)
    (energies.zip structures)
  refine ⟨?_, ?_, ?_, ?_⟩
  · exact List.Pairwise.map _ (fun a b h => by simpa using h) hsorted
  · rw [List.zip_map']
    have : (fun x : ℚ × PyStructure => (x.1, x.2)) = id := by
      funext x
      rfl
    rw [this, List.map_id]
    exact hperm
  · have := hperm.map Prod.snd
    rwa [List.map_snd_zip _ _ (le_of_eq hlen.symm)] at this
  · have := hperm.map Prod.fst
    rwa [List.map_fst_zip _ _ (le_of_eq hlen)] at this

/-- Claim C6: `ConformerSearchData` construction raises a ValidationError when
a non-empty energy list's length differs from its structure list's length, and
on success each structure list is ordered ascending by its energy list, the
two sorted independently with energies permuted in step with their
structures. -/
theorem claim_C6 (files : FilesMap) (conformers : List PyStructure) (cE : List ℚ)
    (rotamers : List PyStructure) (rE : List ℚ) :
    (cE ≠ [] → cE.length ≠ conformers.length →
      mkConformerSearchData files conformers cE rotamers rE =
        .error "The number of conformer energies must match the number of conformers.".data)
    ∧ (rE ≠ [] → rE.length ≠ rotamers.length →
        (cE = [] ∨ cE.length = conformers.length) →
      mkConformerSearchData files conformers cE rotamers rE =
        .error "The number of rotamer energies must match the number of rotamers.".data)
    ∧ (∀ out, mkConformerSearchData files conformers cE rotamers rE = .ok out →
        out.conformerEnergies.Sorted (· ≤ ·)
        ∧ (out.conformerEnergies.zip out.conformers).Perm (cE.zip conformers)
        ∧ out.conformers.Perm conformers
        ∧ out.conformerEnergies.Perm cE
        ∧ out.rotamerEnergies.Sorted (· ≤ ·)
        ∧ (out.rotamerEnergies.zip out.rotamers).Perm (rE.zip rotamers)
        ∧ out.rotamers.Perm rotamers
        ∧ out.rotamerEnergies.Perm rE) := by
  refine ⟨?_, ?_, ?_⟩
  · intro hne hlen
    unfold mkConformerSearchData
    rw [if_pos ⟨by simpa using hne, hlen⟩]
  · intro hne hlen hcok
    unfold mkConformerSearchData
    rw [if_neg (by
      rintro ⟨h1, h2⟩
      rcases hcok with h3 | h3
      · subst h3; simp at h1
      · exact h2 h3)]
    rw [if_pos ⟨by simpa using hne, hlen⟩]
  · intro out hok
    unfold mkConformerSearchData at hok
    split at hok
    · cases hok
    · split at hok
      · cases hok
      · rename_i hc hr
        simp only [Except.ok.injEq] at hok
        subst hok
        have hcpart :
            (if cE.length ≠ 0 then sortByEnergy cE conformers
              else (cE, conformers)).1.Sorted (· ≤ ·)
            ∧ ((if cE.length ≠ 0 then sortByEnergy cE conformers
              else (cE, conformers)).1.zip
                (if cE.length ≠ 0 then sortByEnergy cE conformers
                  else (cE, conformers)).2).Perm (cE.zip conformers)
            ∧ (if cE.length ≠ 0 then sortByEnergy cE conformers
                else (cE, conformers)).2.Perm conformers
            ∧ (if cE.length ≠ 0 then sortByEnergy cE conformers
                else (cE, conformers)).1.Perm cE := by
          by_cases h : cE.length ≠ 0
          · rw [if_pos h]
            exact sortByEnergy_spec cE conformers (by tauto)
          · rw [if_neg h]
            have : cE = [] := by
              simpa using List.length_eq_zero.mp (by omega)
            subst this
            simp [List.Sorted]
        have hrpart :
            (if rE.length ≠ 0 then sortByEnergy rE rotamers
              else (rE, rotamers)).1.Sorted (· ≤ ·)
            ∧ ((if rE.length ≠ 0 then sortByEnergy rE rotamers
              else (rE, rotamers)).1.zip
                (if rE.length ≠ 0 then sortByEnergy rE rotamers
                  else (rE, rotamers)).2).Perm (rE.zip rotamers)
            ∧ (if rE.length ≠ 0 then sortByEnergy rE rotamers
                else (rE, rotamers)).2.Perm rotamers
            ∧ (if rE.length ≠ 0 then sortByEnergy rE rotamers
                else (rE, rotamers)).1.Perm rE := by
          by_cases h : rE.length ≠ 0
          · rw [if_pos h]
            exact sortByEnergy_spec rE rotamers (by tauto)
          · rw [if_neg h]
            have : rE = [] := by
              simpa using List.length_eq_zero.mp (by omega)
            subst this
            simp [List.Sorted]
        exact ⟨hcpart.1, hcpart.2.1, hcpart.2.2.1, hcpart.2.2.2,
          hrpart.1, hrpart.2.1, hrpart.2.2.1, hrpart.2.2.2⟩

/-- Witness for C6: a concrete mismatched construction raises, and a concrete
matched construction sorts. -/
theorem claim_C6_witness :
    (([3, 1] : List ℚ) ≠ [] ∧ ([3, 1] : List ℚ).length ≠
      ([] : List PyStructure).length) ∧
    mkConformerSearchData [] [] [3, 1] [] [] =
      .error "The number of conformer energies must match the number of conformers.".data :=
  ⟨⟨by decide, by decide⟩, (claim_C6 [] [] [3, 1] [] []).1 (by decide) (by decide)⟩

/-! ## Supporting lemmas: base64 -/

theorem b64_table_all : ∀ n : Fin 64,
    charToSix (sixToChar n.val) = some n.val
    ∧ isB64Char (sixToChar n.val) = true
    ∧ ¬(sixToChar n.val = '=') := by
  decide

theorem b64_table (n : Fin 64) :
    charToSix (sixToChar n.val) = some n.val
    ∧ isB64Char (sixToChar n.val) = true
    ∧ ¬(sixToChar n.val = '=') := b64_table_all n

theorem charToSix_lt (c : Char) (n : Nat) (h : charToSix c = some n) : n < 64 := by
  unfold charToSix at h
  have := List.findIdx?_eq_some_iff_findIdx_eq.mp h
  have hlen : b64Alphabet.length = 64 := by decide
  omega

theorem sixGroupsToBytes_lt (ns : List Nat) (bs : List Nat)
    (hns : ∀ x ∈ ns, x < 64) (h : sixGroupsToBytes ns = some bs) :
    ∀ x ∈ bs, x < 256 := by
  generalize hlen : ns.length = n
  induction n using Nat.strong_induction_on generalizing ns bs with
  | _ n ih =>
    match ns with
    | [] =>
      cases h
      simp
    | [_] => cases h
    | [x, y] =>
      cases h
      intro z hz
      simp only [List.mem_singleton] at hz
      subst hz
      have hx := hns x (by simp)
      have hy := hns y (by simp)
      omega
    | [x, y, z] =>
      cases h
      intro w hw
      have hx := hns x (by simp)
      have hy := hns y (by simp)
      have hz := hns z (by simp)
      rcases List.mem_cons.mp hw with h1 | h1
      · subst h1; omega
      · simp only [List.mem_singleton] at h1
        subst h1
        omega
    | x :: y :: z :: w :: rest =>
      unfold sixGroupsToBytes at h
      cases hrest : sixGroupsToBytes rest with
      | none => rw [hrest] at h; cases h
      | some bs' =>
        rw [hrest] at h
        simp only [Option.map_some', Option.some.injEq] at h
        subst h
        have hx := hns x (by simp)
        have hy := hns y (by simp)
        have hz := hns z (by simp)
        have hw := hns w (by simp)
        intro v hv
        rcases List.mem_cons.mp hv with h1 | h1
        · subst h1; omega
        · rcases List.mem_cons.mp h1 with h2 | h2
          · subst h2; omega
          · rcases List.mem_cons.mp h2 with h3 | h3
            · subst h3; omega
            · exact ih rest.length (by subst hlen; simp; omega) rest bs'
                (fun a ha => hns a (by simp [ha])) hrest rfl v h3

theorem charsToSixbits_lt (cs : LC) (ns : List Nat)
    (h : charsToSixbits cs = some ns) : ∀ x ∈ ns, x < 64 := by
  induction cs generalizing ns with
  | nil =>
    cases h
    simp
  | cons c cs ih =>
    unfold charsToSixbits at h
    rcases hc : charToSix c with _ | v
    · rw [hc] at h
      cases h
    · rw [hc] at h
      rcases hrest : charsToSixbits cs with _ | vs
      · rw [hrest] at h
        cases h
      · rw [hrest] at h
        simp only [Option.some.injEq] at h
        subst h
        intro x hx
        rcases List.mem_cons.mp hx with h1 | h1
        · subst h1
          exact charToSix_lt c x hc
        · exact ih vs hrest x h1

theorem b64encodeRaw_spec (b : List Nat) (hb : ∀ x ∈ b, x < 256) :
    ∃ main pad ns, b64encodeRaw b = main ++ List.replicate pad '='
      ∧ pad ≤ 2
      ∧ (∀ c ∈ main, isB64Char c = true ∧ ¬(c = '='))
      ∧ charsToSixbits main = some ns
      ∧ sixGroupsToBytes ns = some b
      ∧ (main.length + pad) % 4 = 0 := by
  generalize hlen : b.length = n
  induction n using Nat.strong_induction_on generalizing b with
  | _ n ih =>
    match b with
    | [] =>
      exact ⟨[], 0, [], by simp [b64encodeRaw], by omega, by simp, rfl, rfl, by simp⟩
    | [a] =>
      have ha : a < 256 := hb a (by simp)
      have h1 : a / 4 < 64 := by omega
      have h2 : a % 4 * 16 < 64 := by omega
      refine ⟨[sixToChar (a / 4), sixToChar (a % 4 * 16)], 2,
        [a / 4, a % 4 * 16], by simp [b64encodeRaw, List.replicate], by omega, ?_, ?_, ?_, by simp⟩
      · intro c hc
        rcases List.mem_cons.mp hc with h3 | h3
        · subst h3
          exact ⟨(b64_table ⟨a / 4, h1⟩).2.1, (b64_table ⟨a / 4, h1⟩).2.2⟩
        · simp only [List.mem_singleton] at h3
          subst h3
          exact ⟨(b64_table ⟨a % 4 * 16, h2⟩).2.1, (b64_table ⟨a % 4 * 16, h2⟩).2.2⟩
      · simp [charsToSixbits, (b64_table ⟨a / 4, h1⟩).1, (b64_table ⟨a % 4 * 16, h2⟩).1]
      · show sixGroupsToBytes [a / 4, a % 4 * 16] = some [a]
        unfold sixGroupsToBytes
        congr 1
        have : a / 4 * 4 + a % 4 * 16 / 16 = a := by omega
        rw [this]
    | [a, b2] =>
      have ha : a < 256 := hb a (by simp)
      have hb2 : b2 < 256 := hb b2 (by simp)
      have h1 : a / 4 < 64 := by omega
      have h2 : a % 4 * 16 + b2 / 16 < 64 := by omega
      have h3 : b2 % 16 * 4 < 64 := by omega
      refine ⟨[sixToChar (a / 4), sixToChar (a % 4 * 16 + b2 / 16),
        sixToChar (b2 % 16 * 4)], 1,
        [a / 4, a % 4 * 16 + b2 / 16, b2 % 16 * 4],
        by simp [b64encodeRaw, List.replicate], by omega, ?_, ?_, ?_, by simp⟩
      · intro c hc
        rcases List.mem_cons.mp hc with h4 | h4
        · subst h4
          exact ⟨(b64_table ⟨_, h1⟩).2.1, (b64_table ⟨_, h1⟩).2.2⟩
        rcases List.mem_cons.mp h4 with h5 | h5
        · subst h5
          exact ⟨(b64_table ⟨_, h2⟩).2.1, (b64_table ⟨_, h2⟩).2.2⟩
        · simp only [List.mem_singleton] at h5
          subst h5
          exact ⟨(b64_table ⟨_, h3⟩).2.1, (b64_table ⟨_, h3⟩).2.2⟩
      · simp [charsToSixbits, (b64_table ⟨_, h1⟩).1, (b64_table ⟨_, h2⟩).1,
          (b64_table ⟨_, h3⟩).1]
      · show sixGroupsToBytes [a / 4, a % 4 * 16 + b2 / 16, b2 % 16 * 4] = some [a, b2]
        unfold sixGroupsToBytes
        congr 1
        have e1 : a / 4 * 4 + (a % 4 * 16 + b2 / 16) / 16 = a := by omega
        have e2 : (a % 4 * 16 + b2 / 16) % 16 * 16 + b2 % 16 * 4 / 4 = b2 := by omega
        rw [e1, e2]
    | a :: b2 :: c :: rest =>
      have ha : a < 256 := hb a (by simp)
      have hb2 : b2 < 256 := hb b2 (by simp)
      have hc : c < 256 := hb c (by simp)
      have h1 : a / 4 < 64 := by omega
      have h2 : a % 4 * 16 + b2 / 16 < 64 := by omega
      have h3 : b2 % 16 * 4 + c / 64 < 64 := by omega
      have h4 : c % 64 < 64 := by omega
      obtain ⟨main', pad', ns', henc', hpad', hmain', hsix', hbytes', hmod'⟩ :=
        ih rest.length (by subst hlen; simp; omega) rest
          (fun x hx => hb x (by simp [hx])) rfl
      refine ⟨sixToChar (a / 4) :: sixToChar (a % 4 * 16 + b2 / 16) ::
          sixToChar (b2 % 16 * 4 + c / 64) :: sixToChar (c % 64) :: main', pad',
        (a / 4) :: (a % 4 * 16 + b2 / 16) :: (b2 % 16 * 4 + c / 64) ::
          (c % 64) :: ns', ?_, hpad', ?_, ?_, ?_, ?_⟩
      · show b64encodeRaw (a :: b2 :: c :: rest) = _
        unfold b64encodeRaw
        rw [henc']
        simp
      · intro ch hch
        rcases List.mem_cons.mp hch with h5 | h5
        · subst h5; exact ⟨(b64_table ⟨_, h1⟩).2.1, (b64_table ⟨_, h1⟩).2.2⟩
        rcases List.mem_cons.mp h5 with h6 | h6
        · subst h6; exact ⟨(b64_table ⟨_, h2⟩).2.1, (b64_table ⟨_, h2⟩).2.2⟩
        rcases List.mem_cons.mp h6 with h7 | h7
        · subst h7; exact ⟨(b64_table ⟨_, h3⟩).2.1, (b64_table ⟨_, h3⟩).2.2⟩
        rcases List.mem_cons.mp h7 with h8 | h8
        · subst h8; exact ⟨(b64_table ⟨_, h4⟩).2.1, (b64_table ⟨_, h4⟩).2.2⟩
        · exact hmain' ch h8
      · simp [charsToSixbits, (b64_table ⟨_, h1⟩).1, (b64_table ⟨_, h2⟩).1,
          (b64_table ⟨_, h3⟩).1, (b64_table ⟨_, h4⟩).1, hsix']
      · unfold sixGroupsToBytes
        rw [hbytes']
        simp only [Option.map_some', Option.some.injEq]
        have e1 : a / 4 * 4 + (a % 4 * 16 + b2 / 16) / 16 = a := by omega
        have e2 : (a % 4 * 16 + b2 / 16) % 16 * 16 + (b2 % 16 * 4 + c / 64) / 4 = b2 := by
          omega
        have e3 : (b2 % 16 * 4 + c / 64) % 4 * 64 + c % 64 = c := by omega
        rw [e1, e2, e3]
      · simp only [List.length_cons]
        omega

theorem takeWhile_append_replicate_eq (main : LC) (pad : Nat)
    (hmain : ∀ c ∈ main, ¬(c = '=')) :
    (main ++ List.replicate pad '=').takeWhile (· ≠ '=') = main := by
  induction main with
  | nil =>
    cases pad with
    | zero => rfl
    | succ k => simp [List.replicate_succ, List.takeWhile_cons]
  | cons c cs ih =>
    rw [List.cons_append, List.takeWhile_cons,
      if_pos (by simp [hmain c (by simp)]), ih (fun x hx => hmain x (by simp [hx]))]

theorem pyB64decode_encode (b : List Nat) (hb : ∀ x ∈ b, x < 256) :
    pyB64decode (b64encodeRaw b) = some b := by
  obtain ⟨main, pad, ns, henc, hpad, hmain, hsix, hbytes, hmod⟩ := b64encodeRaw_spec b hb
  have hfilter : b64Filtered (b64encodeRaw b) = main ++ List.replicate pad '=' := by
    unfold b64Filtered
    rw [henc, List.filter_eq_self]
    intro c hc
    rcases List.mem_append.mp hc with h1 | h1
    · simp [(hmain c h1).1]
    · have : c = '=' := List.eq_of_mem_replicate h1
      subst this
      simp
  have hmn : b64Main (b64encodeRaw b) = main := by
    unfold b64Main
    rw [hfilter]
    exact takeWhile_append_replicate_eq main pad (fun c hc => (hmain c hc).2)
  have hpd : b64Padding (b64encodeRaw b) = List.replicate pad '=' := by
    unfold b64Padding
    rw [hfilter, hmn, List.drop_left]
  unfold pyB64decode
  rw [hfilter, hmn, hpd]
  rw [if_neg (by
    simp only [List.length_append, List.length_replicate]
    omega)]
  rw [if_pos ⟨by simpa using hpad, by
    apply List.all_eq_true.mpr
    intro c hc
    have : c = '=' := List.eq_of_mem_replicate hc
    simp [this]⟩]
  rw [hsix]
  exact hbytes

theorem pyB64decode_lt (s : LC) (bs : List Nat) (h : pyB64decode s = some bs) :
    ∀ x ∈ bs, x < 256 := by
  unfold pyB64decode at h
  split at h
  · cases h
  · split at h
    · rcases hx : charsToSixbits (b64Main s) with _ | ns
      · rw [hx] at h
        cases h
      · rw [hx] at h
        exact sixGroupsToBytes_lt ns bs (charsToSixbits_lt _ ns hx) h
    · cases h

/-! ## Claim theorems: C2, C9 -/

theorem isPrefixOf_append_self (l t : LC) : l.isPrefixOf (l ++ t) = true :=
  List.isPrefixOf_iff_prefix.mpr (List.prefix_append l t)

theorem valueValidate_bytes (b : List Nat) :
    valueValidate (.bytes b) = .ok (.bytes b) := rfl

theorem valueValidate_str (t : LC) :
    valueValidate (.str t) =
      if b64Tag.isPrefixOf t then
        (match pyB64decode (t.drop 7) with
         | some b => Except.ok (PyVal.bytes b)
         | none => .error "binascii.Error: invalid base64-encoded string".data)
      else .ok (.str t) := rfl

theorem valueValidate_ok_str (v v' : PyVal) (s : LC)
    (h : valueValidate v = .ok v') (hv : v' = .str s) :
    b64Tag.isPrefixOf s = false := by
  cases v with
  | bytes b =>
    rw [valueValidate_bytes] at h
    simp only [Except.ok.injEq] at h
    rw [← h] at hv
    cases hv
  | str t =>
    rw [valueValidate_str] at h
    split at h
    · rename_i hpref
      rcases hd : pyB64decode (t.drop 7) with _ | bs
      · rw [hd] at h
        cases h
      · rw [hd] at h
        simp only [Except.ok.injEq] at h
        rw [← h] at hv
        cases hv
    · rename_i hpref
      simp only [Except.ok.injEq] at h
      rw [← h] at hv
      cases hv
      cases hb : b64Tag.isPrefixOf s
      · rfl
      · exact absurd hb hpref

theorem valueValidate_ok_bytes_range (v v' : PyVal) (hv : ValidBytes v)
    (h : valueValidate v = .ok v') : ValidBytes v' := by
  cases v with
  | bytes b =>
    rw [valueValidate_bytes] at h
    simp only [Except.ok.injEq] at h
    rw [← h]
    exact hv
  | str t =>
    rw [valueValidate_str] at h
    split at h
    · rcases hd : pyB64decode (t.drop 7) with _ | bs
      · rw [hd] at h
        cases h
      · rw [hd] at h
        simp only [Except.ok.injEq] at h
        rw [← h]
        exact pyB64decode_lt _ bs hd
    · simp only [Except.ok.injEq] at h
      rw [← h]
      trivial

theorem valueValidate_serialize_roundtrip (v : PyVal) (hv : ValidBytes v)
    (hs : ∀ s, v = .str s → b64Tag.isPrefixOf s = false) :
    valueValidate (serializeValue v) = .ok v := by
  cases v with
  | str s =>
    show valueValidate (.str s) = .ok (.str s)
    rw [valueValidate_str]
    rw [if_neg (by simp [hs s rfl])]
  | bytes b =>
    show valueValidate (.str (b64Tag ++ b64encodeRaw b)) = .ok (.bytes b)
    rw [valueValidate_str]
    rw [if_pos (isPrefixOf_append_self b64Tag _)]
    have hdrop : (b64Tag ++ b64encodeRaw b).drop 7 = b64encodeRaw b := by
      rw [show (7 : Nat) = b64Tag.length from rfl, List.drop_left]
    rw [hdrop, pyB64decode_encode b hv]

/-- Claim C2: for every constructible Files mapping (one accepted by the
validator, with genuine byte values), a full serialize/deserialize cycle is
the identity: serialization maps each bytes value to `"base64:" ++ base64`
and passes strings through, and validation of the serialized mapping restores
every blob to its original value and type. -/
theorem claim_C2 (m0 m : FilesMap) (hbytes : ∀ kv ∈ m0, ValidBytes kv.2)
    (hval : filesValidate m0 = .ok m) :
    filesSerialize m = m.map (fun p => (p.1, serializeValue p.2))
    ∧ filesValidate (filesSerialize m) = .ok m := by
  refine ⟨rfl, ?_⟩
  induction m0 generalizing m with
  | nil =>
    cases hval
    rfl
  | cons kv rest ih =>
    unfold filesValidate at hval
    rcases hv : valueValidate kv.2 with e | v'
    · rw [hv] at hval
      cases hval
    · rw [hv] at hval
      rcases hrest : filesValidate rest with e | rest'
      · rw [hrest] at hval
        cases hval
      · rw [hrest] at hval
        simp only [Except.ok.injEq] at hval
        subst hval
        have hv'range : ValidBytes v' :=
          valueValidate_ok_bytes_range kv.2 v' (hbytes kv (by simp)) hv
        have hv'str : ∀ s, v' = .str s → b64Tag.isPrefixOf s = false :=
          fun s hs => valueValidate_ok_str kv.2 v' s hv hs
        have hhead := valueValidate_serialize_roundtrip v' hv'range hv'str
        have htail := ih rest' (fun kv hkv => hbytes kv (by simp [hkv])) hrest
        show filesValidate ((kv.1, serializeValue v') :: filesSerialize rest') =
          .ok ((kv.1, v') :: rest')
        unfold filesValidate
        rw [hhead, htail]

/-- Witness for C2 at a concrete mapping holding one text and one binary
blob. -/
theorem claim_C2_witness :
    (filesSerialize [("a.txt".data, .str "hello".data),
        ("b.bin".data, .bytes [0, 255, 7])] =
      ([("a.txt".data, .str "hello".data), ("b.bin".data, .bytes [0, 255, 7])] :
        FilesMap).map (fun p => (p.1, serializeValue p.2)))
    ∧ filesValidate (filesSerialize [("a.txt".data, .str "hello".data),
        ("b.bin".data, .bytes [0, 255, 7])]) =
      .ok [("a.txt".data, .str "hello".data), ("b.bin".data, .bytes [0, 255, 7])] :=
  claim_C2
    [("a.txt".data, .str "hello".data), ("b.bin".data, .bytes [0, 255, 7])]
    [("a.txt".data, .str "hello".data), ("b.bin".data, .bytes [0, 255, 7])]
    (by decide) (by decide)

/-- Claim C9: the `"base64:"` decoding applies at every Files validation, not
only when reading a serialized form: any `str` value with that prefix is
stored as the base64-decoding of the remainder (raw bytes) — or rejected if
the remainder is not decodable — and consequently no validated Files mapping
ever holds a `str` value beginning with `"base64:"`. -/
theorem claim_C9 :
    (∀ rest : LC, valueValidate (.str (b64Tag ++ rest)) =
      (match pyB64decode rest with
       | some bs => .ok (.bytes bs)
       | none => .error "binascii.Error: invalid base64-encoded string".data))
    ∧ (∀ (m m' : FilesMap) (k s : LC),
        filesValidate m = .ok m' → (k, .str s) ∈ m' →
          b64Tag.isPrefixOf s = false) := by
  constructor
  · intro rest
    rw [valueValidate_str]
    rw [if_pos (isPrefixOf_append_self b64Tag _)]
    have hdrop : (b64Tag ++ rest).drop 7 = rest := by
      rw [show (7 : Nat) = b64Tag.length from rfl, List.drop_left]
    rw [hdrop]
  · intro m
    induction m with
    | nil =>
      intro m' k s hval hmem
      cases hval
      cases hmem
    | cons kv rest ih =>
      intro m' k s hval hmem
      unfold filesValidate at hval
      rcases hv : valueValidate kv.2 with e | v'
      · rw [hv] at hval
        cases hval
      · rw [hv] at hval
        rcases hrest : filesValidate rest with e | rest'
        · rw [hrest] at hval
          cases hval
        · rw [hrest] at hval
          simp only [Except.ok.injEq] at hval
          subst hval
          rcases List.mem_cons.mp hmem with h1 | h1
          · have : v' = .str s := (congrArg Prod.snd h1).symm
            exact valueValidate_ok_str kv.2 v' s hv this
          · exact ih rest' k s hrest h1

/-- Witness for C9 at a concrete prefixed value and a concrete mapping. -/
theorem claim_C9_witness :
    (valueValidate (.str (b64Tag ++ "aGk=".data)) =
      (match pyB64decode "aGk=".data with
       | some bs => .ok (.bytes bs)
       | none => .error "binascii.Error: invalid base64-encoded string".data))
    ∧ (filesValidate [("a".data, .str "x".data)] =
        .ok [("a".data, .str "x".data)] →
      ("a".data, PyVal.str "x".data) ∈
          ([("a".data, .str "x".data)] : FilesMap) →
        b64Tag.isPrefixOf "x".data = false) :=
  ⟨claim_C9.1 "aGk=".data,
    claim_C9.2 [("a".data, .str "x".data)] [("a".data, .str "x".data)]
      "a".data "x".data⟩

/-! ## Supporting lemmas: the multi-structure XYZ loop -/

theorem pyIdx_drop (l : List LC) (i : Nat) (x : LC) (t : List LC)
    (h : l.drop i = x :: t) : pyIdx l (i : Int) = some x := by
  unfold pyIdx
  rw [if_neg (by omega)]
  have h1 : ((i : Int)).toNat = i := by omega
  rw [h1, List.get?_eq_getElem?, ← List.head?_drop, h]
  rfl

theorem getD_of_drop (l : List LC) (j : Nat) (x : LC) (t : List LC)
    (h : l.drop j = x :: t) : l.getD j [] = x := by
  unfold List.getD
  rw [List.get?_eq_getElem?, ← List.head?_drop, h]
  rfl

theorem pySlice_nat (l : List LC) (i e : Nat) (hie : i ≤ e) (hel : e ≤ l.length) :
    pySlice l (i : Int) (e : Int) = (l.drop i).take (e - i) := by
  unfold pySlice pyNormIdx
  have h1 : ((if (i : Int) < 0 then max ((l.length : Int) + i) 0
      else min (i : Int) l.length)).toNat = i := by
    rw [if_neg (by omega)]
    omega
  have h2 : ((if (e : Int) < 0 then max ((l.length : Int) + e) 0
      else min (e : Int) l.length)).toNat = e := by
    rw [if_neg (by omega)]
    omega
  rw [h1, h2]

theorem pyInt_some_strip (l : LC) (v : Int) (h : pyInt l = some v) :
    pyStrip l ≠ [] := by
  intro hcon
  unfold pyInt at h
  rw [hcon] at h
  cases h

theorem skipBlanks_spec : ∀ (sep : List LC) (lines : List LC) (j : Nat)
    (rest : List LC),
    lines.drop j = sep ++ rest →
    (∀ l ∈ sep, pyStrip l = []) →
    (rest = [] ∨ pyStrip rest.headI ≠ []) →
    skipBlanks lines j = j + sep.length := by
  intro sep
  induction sep with
  | nil =>
    intro lines j rest hdrop hblank hrest
    unfold skipBlanks
    rw [dif_neg ?_]
    · simp
    rintro ⟨hlt, hstrip⟩
    rcases hrest with h | h
    · subst h
      have := congrArg List.length hdrop
      simp at this
      omega
    · cases rest with
      | nil => exact h rfl
      | cons r0 rt =>
        rw [getD_of_drop lines j r0 rt (by simpa using hdrop)] at hstrip
        exact h hstrip
  | cons s ss ih =>
    intro lines j rest hdrop hblank hrest
    have hjlt : j < lines.length := by
      have := congrArg List.length hdrop
      simp at this
      omega
    have hgd : pyStrip (lines.getD j []) = [] := by
      rw [getD_of_drop lines j s (ss ++ rest) (by simpa using hdrop)]
      exact hblank s (by simp)
    have hdropj1 : lines.drop (j + 1) = ss ++ rest := by
      rw [← List.tail_drop, hdrop]
      rfl
    unfold skipBlanks
    rw [dif_pos ⟨hjlt, hgd⟩]
    rw [ih lines (j + 1) rest hdropj1 (fun l hl => hblank l (by simp [hl])) hrest]
    have hsl : (s :: ss).length = ss.length + 1 := by simp
    omega

theorem fromXyzMultiLoop_spec (ca ma : Option Int) :
    ∀ (ps : List (List LC × List LC)) (Ss : List PyStructure)
      (fuel : Nat) (lines : List LC) (i : Nat),
      lines.drop i = assembleBlocks ps →
      i ≤ lines.length →
      ps.length + 1 ≤ fuel →
      List.Forall₂ (fun p S =>
        (∃ n : Nat, pyInt p.1.headI = some ((n : Int)) ∧ p.1.length = n + 2)
        ∧ (∀ l ∈ p.1, ∀ c ∈ l, ¬c = '\n')
        ∧ fromXyzLines p.1 ca ma = .ok S
        ∧ (∀ l ∈ p.2, pyStrip l = [])) ps Ss →
      fromXyzMultiLoop lines ca ma fuel ((i : Nat) : Int) = .ok Ss := by
  intro ps
  induction ps with
  | nil =>
    intro Ss fuel lines i hdrop hle hfuel hwf
    cases hwf
    obtain ⟨f, rfl⟩ : ∃ f, fuel = f + 1 := ⟨fuel - 1, by omega⟩
    have hlen0 : lines.length - i = 0 := by
      have := congrArg List.length hdrop
      simpa [assembleBlocks] using this
    unfold fromXyzMultiLoop
    rw [if_neg (by omega)]
  | cons p ps ih =>
    intro Ss fuel lines i hdrop hle hfuel hwf
    rcases hwf with _ | ⟨hp, hwf'⟩
    rename_i S Ss'
    obtain ⟨⟨n, hint, hlen⟩, hnl, hparse, hblank⟩ := hp
    obtain ⟨b, sep⟩ := p
    simp only at hint hlen hnl hparse hblank
    obtain ⟨h0, bt, rfl⟩ : ∃ h0 bt, b = h0 :: bt := by
      cases b with
      | nil => simp at hlen
      | cons a l => exact ⟨a, l, rfl⟩
    have hint' : pyInt h0 = some ((n : Nat) : Int) := by simpa using hint
    have hdropi : lines.drop i =
        h0 :: (bt ++ (sep ++ assembleBlocks ps)) := by
      rw [hdrop]
      simp [assembleBlocks]
    have hdlen : lines.length - i =
        (n + 2) + (sep.length + (assembleBlocks ps).length) := by
      have := congrArg List.length hdropi
      simp only [List.length_drop, List.length_cons, List.length_append] at this
      simp only [List.length_cons] at hlen
      omega
    have hilt : i < lines.length := by omega
    obtain ⟨f, rfl⟩ : ∃ f, fuel = f + 1 := ⟨fuel - 1, by omega⟩
    have hslice : pySlice lines ((i : Nat) : Int) ((i : Int) + (n : Int) + 2) =
        h0 :: bt := by
      have hcast : (i : Int) + (n : Int) + 2 = (((i + n + 2 : Nat)) : Int) := by
        push_cast
        ring
      rw [hcast, pySlice_nat lines i (i + n + 2) (by omega) (by omega)]
      have hdeq : lines.drop i = (h0 :: bt) ++ (sep ++ assembleBlocks ps) := by
        simpa using hdropi
      rw [hdeq]
      rw [show i + n + 2 - i = (h0 :: bt).length from by
        simp only [List.length_cons] at hlen ⊢
        omega]
      exact List.take_left _ _
    have hfx : fromXyz (joinSep ['\n'] (h0 :: bt)) ca ma = .ok S := by
      unfold fromXyz
      rw [splitLines_joinSep _ (by simp) hnl]
      exact hparse
    have hdrop2 : lines.drop (i + n + 2) = sep ++ assembleBlocks ps := by
      have hstep : lines.drop (i + n + 2) = (lines.drop i).drop (n + 2) := by
        rw [List.drop_drop]
        congr 1
      rw [hstep, hdropi]
      rw [show h0 :: (bt ++ (sep ++ assembleBlocks ps)) =
        (h0 :: bt) ++ (sep ++ assembleBlocks ps) from by simp]
      rw [show n + 2 = (h0 :: bt).length from by
        simp only [List.length_cons] at hlen ⊢
        omega]
      exact List.drop_left _ _
    have hrest_head : assembleBlocks ps = [] ∨
        pyStrip (assembleBlocks ps).headI ≠ [] := by
      cases hps : ps with
      | nil => exact Or.inl rfl
      | cons p' ps' =>
        right
        rw [hps] at hwf'
        rcases hwf' with _ | ⟨hp', _⟩
        obtain ⟨⟨n', hint2, hlen2⟩, _, _, _⟩ := hp'
        obtain ⟨h1, bt1, hb1⟩ : ∃ h1 bt1, p'.1 = h1 :: bt1 := by
          cases hx : p'.1 with
          | nil => rw [hx] at hlen2; simp at hlen2
          | cons a l => exact ⟨a, l, rfl⟩
        have hshape : assembleBlocks (p' :: ps') =
            h1 :: (bt1 ++ (p'.2 ++ assembleBlocks ps')) := by
          simp [assembleBlocks, hb1]
        rw [hshape]
        rw [hb1] at hint2
        exact pyInt_some_strip h1 _ (by simpa using hint2)
    have hskip : skipBlanks lines (i + n + 2) = i + n + 2 + sep.length :=
      skipBlanks_spec sep lines (i + n + 2) (assembleBlocks ps) hdrop2 hblank
        hrest_head
    have hdrop3 : lines.drop (i + n + 2 + sep.length) = assembleBlocks ps := by
      have hstep : lines.drop (i + n + 2 + sep.length) =
          (lines.drop (i + n + 2)).drop sep.length := by
        rw [List.drop_drop]
      rw [hstep, hdrop2]
      exact List.drop_left _ _
    have hrec := ih Ss' f lines (i + n + 2 + sep.length) hdrop3 (by omega)
      (by simp only [List.length_cons] at hfuel; omega) hwf'
    unfold fromXyzMultiLoop
    rw [if_pos (by exact_mod_cast hilt)]
    simp only [pyIdx_drop lines i h0 _ hdropi, hint', hslice, hfx]
    rw [show (i : Int) + (n : Int) + 2 = (((i + n + 2 : Nat)) : Int) from by
      push_cast
      ring]
    rw [if_neg (by omega)]
    rw [show (((i + n + 2 : Nat) : Int)).toNat = i + n + 2 from by omega]
    rw [hskip, hrec]

theorem assembleBlocks_length_ge (ca ma : Option Int) :
    ∀ (ps : List (List LC × List LC)) (Ss : List PyStructure),
      List.Forall₂ (BlockSepWF ca ma) ps Ss →
      ps.length ≤ (assembleBlocks ps).length := by
  intro ps
  induction ps with
  | nil =>
    intro Ss h
    simp
  | cons p pt ih =>
    intro Ss h
    rcases h with _ | ⟨hp, ht⟩
    obtain ⟨⟨n, hint, hlen⟩, _⟩ := hp
    obtain ⟨b, sep⟩ := p
    simp only at hlen
    have hih := ih _ ht
    simp only [assembleBlocks, List.length_append, List.length_cons]
    omega

/-- Claim C8: on a well-formed multi-structure stream — one whose stripped,
line-split text decomposes into parse blocks, each spanning `(leading atom
count) + 2` lines and accepted by the single-structure parser, interleaved with
runs of blank separator lines — `from_xyz_multi` returns exactly the per-block
structures in block order.  The result is determined by the block list alone
(the blank separators, present or absent, do not affect it), so a two-block
stream with a blank separator line parses to the same two structures as the
stream without it; and a single-block input yields exactly the structure that
`from_xyz` produces on that block's text. -/
theorem claim_C8 (ca ma : Option Int) (input : LC)
    (ps : List (List LC × List LC)) (Ss : List PyStructure)
    (hsplit : splitLines (pyStrip input) = assembleBlocks ps)
    (hwf : List.Forall₂ (BlockSepWF ca ma) ps Ss) :
    fromXyzMulti input ca ma = .ok Ss ∧
    Ss.length = ps.length ∧
    (∀ b S, ps = [(b, [])] → Ss = [S] →
      fromXyz (joinSep ['\n'] b) ca ma = .ok S) := by
  refine ⟨?_, hwf.length_eq.symm, ?_⟩
  · have hlines : (splitLines (pyStrip input)).drop 0 = assembleBlocks ps := by
      simpa using hsplit
    have hfuel : ps.length + 1 ≤ (splitLines (pyStrip input)).length + 1 := by
      have h1 := assembleBlocks_length_ge ca ma ps Ss hwf
      have h2 := congrArg List.length hsplit
      omega
    have hmain := fromXyzMultiLoop_spec ca ma ps Ss
      ((splitLines (pyStrip input)).length + 1) (splitLines (pyStrip input)) 0
      hlines (by omega) hfuel (hwf.imp (fun _ _ h => h))
    show fromXyzMultiLoop (splitLines (pyStrip input)) ca ma
      ((splitLines (pyStrip input)).length + 1) 0 = .ok Ss
    exact_mod_cast hmain
  · intro b S hps hSs
    subst hps
    subst hSs
    rcases hwf with _ | ⟨hp, _⟩
    obtain ⟨⟨n, hint, hlen⟩, hnl, hparse, _⟩ := hp
    simp only at hint hlen hnl hparse
    have hbne : b ≠ [] := by
      intro hcon
      rw [hcon] at hlen
      simp at hlen
    unfold fromXyz
    rw [splitLines_joinSep b hbne hnl]
    exact hparse

theorem pyFloat_zero : pyFloat ['0', '.', '0'] = some 0 := by
  have h1 : pyFloat ['0', '.', '0']
      = some ((0 : ℚ) + (0 : ℚ) / (10 : ℚ) ^ (1 : Nat)) := rfl
  rw [h1]
  norm_num

theorem mapM_pyFloat_zero : (["0.0".data, "0.0".data, "0.0".data] : List LC).mapM pyFloat
    = some [0, 0, 0] := by
  simp [List.mapM.loop, pyFloat_zero]

theorem parseCoordRows_c8 :
    parseCoordRows ["H 0.0 0.0 0.0".data] = .ok (["H".data], [[0, 0, 0]]) := by
  have hsp : pySplitWs "H 0.0 0.0 0.0".data
      = "H".data :: ["0.0".data, "0.0".data, "0.0".data] := by decide
  simp only [parseCoordRows, hsp]
  rw [show (["0.0".data, "0.0".data, "0.0".data] : List LC).mapM pyFloat
      = some [0, 0, 0] from mapM_pyFloat_zero]
  simp [zero_div]

theorem fromXyzLines_c8 : fromXyzLines c8Block none none = .ok c8S := by
  unfold c8Block c8S
  simp only [fromXyzLines, List.headI]
  rw [show pyInt "1".data = some 1 from by decide]
  simp only [List.get?]
  rw [show classifyTokens (pySplitWs (pyStrip "cmt".data)) [] [] []
      = .ok ([], [], ["cmt".data]) from by decide]
  simp only [Option.isSome_none, Bool.false_eq_true, false_and, if_false]
  rw [show pySlice ["1".data, "cmt".data, "H 0.0 0.0 0.0".data] 2 (2 + 1)
      = ["H 0.0 0.0 0.0".data] from by decide]
  rw [parseCoordRows_c8]
  decide

theorem claim_C8_witness :
    fromXyzMulti ("1\ncmt\nH 0.0 0.0 0.0\n\n1\ncmt\nH 0.0 0.0 0.0".data)
        none none = .ok [c8S, c8S] ∧
    fromXyzMulti ("1\ncmt\nH 0.0 0.0 0.0\n1\ncmt\nH 0.0 0.0 0.0".data)
        none none = .ok [c8S, c8S] ∧
    fromXyz (joinSep ['\n'] c8Block) none none = .ok c8S := by
  have hwf1 : BlockSepWF none none (c8Block, [[]]) c8S :=
    ⟨⟨1, by decide, by decide⟩, by decide, fromXyzLines_c8, by decide⟩
  have hwf2 : BlockSepWF none none (c8Block, []) c8S :=
    ⟨⟨1, by decide, by decide⟩, by decide, fromXyzLines_c8, by decide⟩
  refine ⟨?_, ?_, ?_⟩
  · exact (claim_C8 none none _ [(c8Block, [[]]), (c8Block, [])] [c8S, c8S]
      (by decide) (.cons hwf1 (.cons hwf2 .nil))).1
  · exact (claim_C8 none none _ [(c8Block, []), (c8Block, [])] [c8S, c8S]
      (by decide) (.cons hwf2 (.cons hwf2 .nil))).1
  · exact (claim_C8 none none ("1\ncmt\nH 0.0 0.0 0.0".data) [(c8Block, [])]
      [c8S] (by decide) (.cons hwf2 .nil)).2.2 c8Block c8S rfl rfl

theorem not_newline_of_not_space (c : Char) (h : pyIsSpace c = false) : ¬c = '\n' := by
  intro hc
  subst hc
  simp [pyIsSpace] at h

set_option maxRecDepth 10000 in
theorem periodicTable_wf : ∀ s ∈ periodicTableSymbols,
    pyCapitalize s = s ∧ s ≠ [] ∧ ∀ c ∈ s, pyIsSpace c = false := by
  decide

set_option maxRecDepth 10000 in
theorem identifierFieldNames_wf : ∀ k ∈ identifierFieldNames,
    k ≠ [] ∧ ∀ c ∈ k, pyIsSpace c = false ∧ ¬c = '=' ∧ ¬c = 'q' := by
  decide

theorem pyRemoveAll_cons_nomatch (pat : LC) (hpat : pat ≠ []) (c : Char) (cs : LC)
    (h : pat.isPrefixOf (c :: cs) = false) :
    pyRemoveAll pat (c :: cs) = c :: pyRemoveAll pat cs := by
  rw [pyRemoveAll]
  rw [dif_neg hpat]
  rw [if_neg (by simp [h])]

theorem pyRemoveAll_strip_pat (pat s : LC) (hpat : pat ≠ []) :
    pyRemoveAll pat (pat ++ s) = pyRemoveAll pat s := by
  obtain ⟨c0, pt, rfl⟩ : ∃ c0 pt, pat = c0 :: pt := by
    cases pat with
    | nil => exact absurd rfl hpat
    | cons a l => exact ⟨a, l, rfl⟩
  rw [List.cons_append, pyRemoveAll]
  rw [dif_neg hpat]
  rw [if_pos (by
    rw [← List.cons_append]
    exact isPrefixOf_append_self (c0 :: pt) s)]
  congr 1
  simp

theorem pyRemoveAll_no_head (c0 : Char) (pr : LC) (s : LC)
    (h : ∀ c ∈ s, ¬c = c0) : pyRemoveAll (c0 :: pr) s = s := by
  induction s with
  | nil => simp [pyRemoveAll]
  | cons c cs ih =>
    rw [pyRemoveAll_cons_nomatch (c0 :: pr) (by simp) c cs ?_]
    · rw [ih (fun x hx => h x (by simp [hx]))]
    · rw [List.isPrefixOf]
      have hc : ¬c0 = c := fun hc => h c (by simp) hc.symm
      simp [hc]

theorem identKey_extract (k : LC) (hk : k ∈ identifierFieldNames) :
    pyRemoveAll "qcio__identifiers_".data ("qcio__identifiers_".data ++ k) = k := by
  rw [pyRemoveAll_strip_pat _ k (by decide)]
  refine pyRemoveAll_no_head 'q' _ k ?_
  intro c hc
  exact ((identifierFieldNames_wf k hk).2 c hc).2.2

theorem pyRemoveAll_qcio_charge :
    pyRemoveAll "qcio_".data "qcio_charge".data = "charge".data := by
  rw [show "qcio_charge".data = "qcio_".data ++ "charge".data from rfl]
  rw [pyRemoveAll_strip_pat _ _ (by decide)]
  exact pyRemoveAll_no_head 'q' _ _ (by decide)

theorem pyRemoveAll_qcio_multiplicity :
    pyRemoveAll "qcio_".data "qcio_multiplicity".data = "multiplicity".data := by
  rw [show "qcio_multiplicity".data = "qcio_".data ++ "multiplicity".data from rfl]
  rw [pyRemoveAll_strip_pat _ _ (by decide)]
  exact pyRemoveAll_no_head 'q' _ _ (by decide)

theorem intToChars_ne_nil (z : Int) : intToChars z ≠ [] := by
  unfold intToChars
  split
  · simp
  · exact natToChars_ne_nil _

theorem intToChars_wf (z : Int) :
    ∀ c ∈ intToChars z, pyIsSpace c = false ∧ ¬c = '=' ∧ ¬c = '\n' := by
  intro c hc
  have hd : c.isDigit = true ∨ c = '-' := by
    unfold intToChars at hc
    split at hc
    · rcases List.mem_cons.mp hc with h | h
      · exact Or.inr h
      · exact Or.inl (natToChars_all_digits _ c h)
    · exact Or.inl (natToChars_all_digits _ c hc)
  rcases hd with h | h
  · exact ⟨isDigit_not_space c h, digit_ne c h '=' (by decide),
      digit_ne c h '\n' (by decide)⟩
  · subst h
    refine ⟨by decide, by decide, by decide⟩

theorem renderFixed_ne_nil (p : Nat) (q : ℚ) : renderFixed p q ≠ [] := by
  unfold renderFixed
  split
  · simp [natToChars_ne_nil]
  · simp [natToChars_ne_nil]

theorem renderFixed_wf (p : Nat) (q : ℚ) :
    ∀ c ∈ renderFixed p q, pyIsSpace c = false := by
  intro c hc
  simp only [renderFixed] at hc
  have hsign : ∀ (b : Prop) (w : Decidable b), c ∈ (if b then ['-'] else ([] : LC)) → c = '-' := by
    intro b w hx
    split at hx
    · simpa using hx
    · simp at hx
  have hdig : c.isDigit = true → pyIsSpace c = false := isDigit_not_space c
  split at hc
  · rcases List.mem_append.mp hc with h | h
    · rw [hsign _ _ h]
      decide
    · exact hdig (natToChars_all_digits _ c h)
  · rcases List.mem_append.mp hc with h | h
    · rcases List.mem_append.mp h with h1 | h1
      · rw [hsign _ _ h1]
        decide
      · exact hdig (natToChars_all_digits _ c h1)
    · rcases List.mem_cons.mp h with h1 | h1
      · subst h1
        decide
      · exact hdig (padZeros_all_digits _ _ (natToChars_all_digits _) c h1)

theorem pySplitWs_spaces_prepend (sp s : LC) (hsp : ∀ c ∈ sp, pyIsSpace c = true) :
    pySplitWs (sp ++ s) = pySplitWs s := by
  induction sp with
  | nil => rfl
  | cons c cs ih =>
    rw [List.cons_append, pySplitWs_cons_space c (hsp c (by simp))]
    exact ih (fun x hx => hsp x (by simp [hx]))

theorem pySplitWs_word_spaces (w sp s : LC) (hw : ∀ c ∈ w, pyIsSpace c = false)
    (hne : w ≠ []) (hsp : sp ≠ []) (hspc : ∀ c ∈ sp, pyIsSpace c = true) :
    pySplitWs (w ++ sp ++ s) = w :: pySplitWs s := by
  obtain ⟨c0, sp', rfl⟩ : ∃ c0 sp', sp = c0 :: sp' := by
    cases sp with
    | nil => exact absurd rfl hsp
    | cons a l => exact ⟨a, l, rfl⟩
  have hshape : w ++ (c0 :: sp') ++ s = w ++ c0 :: (sp' ++ s) := by simp
  rw [hshape, pySplitWs_word_append w (sp' ++ s) c0 hw hne (hspc c0 (by simp))]
  rw [pySplitWs_spaces_prepend sp' s (fun x hx => hspc x (by simp [hx]))]

theorem pySplitWs_joinSep (ts : List LC)
    (h : ∀ t ∈ ts, t ≠ [] ∧ ∀ c ∈ t, pyIsSpace c = false) :
    pySplitWs (joinSep [' '] ts) = ts := by
  induction ts with
  | nil => rfl
  | cons t ts ih =>
    cases ts with
    | nil =>
      show pySplitWs t = [t]
      exact pySplitWs_word t (h t (by simp)).2 (h t (by simp)).1
    | cons t2 ts2 =>
      rw [joinSep_cons [' '] t (t2 :: ts2) (by simp)]
      have hshape : t ++ [' '] ++ joinSep [' '] (t2 :: ts2)
          = t ++ ' ' :: joinSep [' '] (t2 :: ts2) := by simp
      rw [hshape,
        pySplitWs_word_append t _ ' ' (h t (by simp)).2 (h t (by simp)).1 (by decide)]
      rw [ih (fun x hx => h x (by simp [hx]))]

theorem pySplitWs_padLeft18_append (r s : LC) (hr : ∀ c ∈ r, pyIsSpace c = false)
    (hne : r ≠ []) :
    pySplitWs (padLeft18 r ++ ' ' :: s) = r :: pySplitWs s := by
  unfold padLeft18
  have hshape : (List.replicate (18 - r.length) ' ' ++ r) ++ ' ' :: s
      = List.replicate (18 - r.length) ' ' ++ (r ++ ' ' :: s) := by simp
  rw [hshape, pySplitWs_spaces_prepend _ _ (by
    intro c hc
    rw [List.eq_of_mem_replicate hc]
    decide)]
  exact pySplitWs_word_append r s ' ' hr hne (by decide)

theorem pySplitWs_padLeft18 (r : LC) (hr : ∀ c ∈ r, pyIsSpace c = false)
    (hne : r ≠ []) : pySplitWs (padLeft18 r) = [r] := by
  unfold padLeft18
  rw [pySplitWs_spaces_prepend _ _ (by
    intro c hc
    rw [List.eq_of_mem_replicate hc]
    decide)]
  exact pySplitWs_word r hr hne

theorem pySplitWs_coordLine (p : Nat) (sym : LC) (c : ℚ × ℚ × ℚ)
    (hsym : ∀ ch ∈ sym, pyIsSpace ch = false) (hne : sym ≠ []) :
    pySplitWs (coordLine p sym c) =
      [sym, renderFixed p (c.1 * BOHR_TO_ANGSTROM),
       renderFixed p (c.2.1 * BOHR_TO_ANGSTROM),
       renderFixed p (c.2.2 * BOHR_TO_ANGSTROM)] := by
  have hshape : coordLine p sym c
      = sym ++ (List.replicate (2 - sym.length) ' ' ++ [' '])
        ++ (padLeft18 (renderFixed p (c.1 * BOHR_TO_ANGSTROM))
          ++ ' ' :: (padLeft18 (renderFixed p (c.2.1 * BOHR_TO_ANGSTROM))
            ++ ' ' :: padLeft18 (renderFixed p (c.2.2 * BOHR_TO_ANGSTROM)))) := by
    simp [coordLine, pyFormat2s]
  rw [hshape]
  rw [pySplitWs_word_spaces sym _ _ hsym hne (by simp) (by
    intro x hx
    rcases List.mem_append.mp hx with h | h
    · rw [List.eq_of_mem_replicate h]
      decide
    · rw [show x = ' ' from by simpa using h]
      decide)]
  rw [pySplitWs_padLeft18_append _ _ (renderFixed_wf p _) (renderFixed_ne_nil p _)]
  rw [pySplitWs_padLeft18_append _ _ (renderFixed_wf p _) (renderFixed_ne_nil p _)]
  rw [pySplitWs_padLeft18 _ (renderFixed_wf p _) (renderFixed_ne_nil p _)]

theorem split_eq_token (pre w : LC) (hpre : ∀ c ∈ pre, ¬c = '=')
    (hw : ∀ c ∈ w, ¬c = '=') :
    pySplitOnP (· = '=') (pre ++ '=' :: w) = [pre, w] := by
  rw [pySplitOnP_append_sep _ pre _ '='
    (fun c hc => decide_eq_false (hpre c hc)) (by decide)]
  rw [pySplitOnP_nosep _ w (fun c hc => decide_eq_false (hw c hc))]

theorem not_identPrefix_charge (u : LC) :
    "qcio__identifiers_".data.isPrefixOf ("qcio_charge".data ++ u) = false := by
  simp [List.isPrefixOf]

theorem not_identPrefix_mult (u : LC) :
    "qcio__identifiers_".data.isPrefixOf ("qcio_multiplicity".data ++ u) = false := by
  simp [List.isPrefixOf]

theorem classifyTokens_cons (t : LC) (ts : List LC) (sk : List (LC × PyScalar))
    (ik : List (LC × LC)) (oc : List LC) :
    classifyTokens (t :: ts) sk ik oc =
      (if "qcio__identifiers_".data.isPrefixOf t then
        match (pySplitOnP (· = '=') t).get? 1 with
        | none => .error "IndexError: list index out of range".data
        | some v => classifyTokens ts sk
            (dictUpsert ik (pyRemoveAll "qcio__identifiers_".data
              (pySplitOnP (· = '=') t).headI) v) oc
      else if "qcio_".data.isPrefixOf t then
        match (pySplitOnP (· = '=') t).get? 1 with
        | none => .error "IndexError: list index out of range".data
        | some v => classifyTokens ts
            (dictUpsert sk (pyRemoveAll "qcio_".data (pySplitOnP (· = '=') t).headI)
              (.str v)) ik oc
      else classifyTokens ts sk ik (oc ++ [t])) := rfl

theorem classifyTokens_charge (w : LC) (hw : ∀ c ∈ w, ¬c = '=')
    (ts : List LC) (sk : List (LC × PyScalar)) (ik : List (LC × LC)) (oc : List LC) :
    classifyTokens (("qcio_charge=".data ++ w) :: ts) sk ik oc
      = classifyTokens ts (dictUpsert sk "charge".data (.str w)) ik oc := by
  rw [show ("qcio_charge=".data ++ w) = "qcio_charge".data ++ '=' :: w from rfl]
  rw [classifyTokens_cons]
  rw [not_identPrefix_charge ('=' :: w)]
  rw [if_neg (by simp)]
  rw [show "qcio_".data.isPrefixOf ("qcio_charge".data ++ '=' :: w) = true from by
    rw [show "qcio_charge".data ++ '=' :: w
        = "qcio_".data ++ ("charge".data ++ '=' :: w) from rfl]
    exact isPrefixOf_append_self _ _]
  rw [if_pos rfl]
  rw [split_eq_token "qcio_charge".data w (by decide) hw]
  rw [show (["qcio_charge".data, w] : List LC).headI = "qcio_charge".data from rfl]
  rw [pyRemoveAll_qcio_charge]
  rfl

theorem classifyTokens_mult (w : LC) (hw : ∀ c ∈ w, ¬c = '=')
    (ts : List LC) (sk : List (LC × PyScalar)) (ik : List (LC × LC)) (oc : List LC) :
    classifyTokens (("qcio_multiplicity=".data ++ w) :: ts) sk ik oc
      = classifyTokens ts (dictUpsert sk "multiplicity".data (.str w)) ik oc := by
  rw [show ("qcio_multiplicity=".data ++ w) = "qcio_multiplicity".data ++ '=' :: w from rfl]
  rw [classifyTokens_cons]
  rw [not_identPrefix_mult ('=' :: w)]
  rw [if_neg (by simp)]
  rw [show "qcio_".data.isPrefixOf ("qcio_multiplicity".data ++ '=' :: w) = true from by
    rw [show "qcio_multiplicity".data ++ '=' :: w
        = "qcio_".data ++ ("multiplicity".data ++ '=' :: w) from rfl]
    exact isPrefixOf_append_self _ _]
  rw [if_pos rfl]
  rw [split_eq_token "qcio_multiplicity".data w (by decide) hw]
  rw [show (["qcio_multiplicity".data, w] : List LC).headI
      = "qcio_multiplicity".data from rfl]
  rw [pyRemoveAll_qcio_multiplicity]
  rfl

theorem classifyTokens_ident (k v : LC) (hk : k ∈ identifierFieldNames)
    (hv : ∀ c ∈ v, ¬c = '=')
    (ts : List LC) (sk : List (LC × PyScalar)) (ik : List (LC × LC)) (oc : List LC) :
    classifyTokens (("qcio__identifiers_".data ++ k ++ '=' :: v) :: ts) sk ik oc
      = classifyTokens ts sk (dictUpsert ik k v) oc := by
  have hpre : ∀ c ∈ "qcio__identifiers_".data, ¬c = '=' := by decide
  have hsplit : pySplitOnP (· = '=') ("qcio__identifiers_".data ++ k ++ '=' :: v)
      = ["qcio__identifiers_".data ++ k, v] := by
    refine split_eq_token _ v ?_ hv
    intro c hc
    rcases List.mem_append.mp hc with h | h
    · exact hpre c h
    · exact ((identifierFieldNames_wf k hk).2 c h).2.1
  rw [classifyTokens_cons]
  rw [show "qcio__identifiers_".data.isPrefixOf
      ("qcio__identifiers_".data ++ k ++ '=' :: v) = true from by
    rw [List.append_assoc]
    exact isPrefixOf_append_self _ _]
  rw [if_pos rfl]
  rw [hsplit]
  rw [show (["qcio__identifiers_".data ++ k, v] : List LC).headI
      = "qcio__identifiers_".data ++ k from rfl]
  rw [identKey_extract k hk]
  rfl

theorem classifyTokens_comment (t : LC) (h : "qcio_".data.isPrefixOf t = false)
    (ts : List LC) (sk : List (LC × PyScalar)) (ik : List (LC × LC)) (oc : List LC) :
    classifyTokens (t :: ts) sk ik oc = classifyTokens ts sk ik (oc ++ [t]) := by
  have h1 : "qcio__identifiers_".data.isPrefixOf t = false := by
    cases hx : "qcio__identifiers_".data.isPrefixOf t with
    | false => rfl
    | true =>
      have hp : "qcio_".data <+: t :=
        List.IsPrefix.trans (by decide) (List.isPrefixOf_iff_prefix.mp hx)
      rw [List.isPrefixOf_iff_prefix.mpr hp] at h
      cases h
  rw [classifyTokens_cons, h1]
  rw [if_neg (by simp)]
  rw [h]
  rw [if_neg (by simp)]

theorem classifyTokens_comments_run : ∀ (ts : List LC)
    (sk : List (LC × PyScalar)) (ik : List (LC × LC)) (oc : List LC),
    (∀ t ∈ ts, "qcio_".data.isPrefixOf t = false) →
    classifyTokens ts sk ik oc = .ok (sk, ik, oc ++ ts) := by
  intro ts
  induction ts with
  | nil =>
    intro sk ik oc h
    simp [classifyTokens]
  | cons t ts ih =>
    intro sk ik oc h
    rw [classifyTokens_comment t (h t (by simp)) ts sk ik oc]
    rw [ih sk ik (oc ++ [t]) (fun x hx => h x (by simp [hx]))]
    simp

theorem classifyTokens_idents_run : ∀ (ids : List (LC × LC)) (ts : List LC)
    (sk : List (LC × PyScalar)) (ik : List (LC × LC)) (oc : List LC),
    (∀ kv ∈ ids, kv.1 ∈ identifierFieldNames ∧ ∀ c ∈ kv.2, ¬c = '=') →
    classifyTokens ((ids.map fun kv => "qcio__identifiers_".data ++ kv.1 ++ '=' :: kv.2)
        ++ ts) sk ik oc
      = classifyTokens ts sk (ids.foldl (fun m kv => dictUpsert m kv.1 kv.2) ik) oc := by
  intro ids
  induction ids with
  | nil =>
    intro ts sk ik oc h
    rfl
  | cons kv ids ih =>
    intro ts sk ik oc h
    rw [show ((kv :: ids).map
          (fun kv => "qcio__identifiers_".data ++ kv.1 ++ '=' :: kv.2) ++ ts)
        = ("qcio__identifiers_".data ++ kv.1 ++ '=' :: kv.2)
          :: ((ids.map (fun kv => "qcio__identifiers_".data ++ kv.1 ++ '=' :: kv.2))
            ++ ts) from rfl]
    rw [classifyTokens_ident kv.1 kv.2 (h kv (by simp)).1
      (fun c hc => (h kv (by simp)).2 c hc)]
    rw [ih ts sk (dictUpsert ik kv.1 kv.2) oc (fun x hx => h x (by simp [hx]))]
    rfl

theorem dictUpsert_fresh (m : List (LC × LC)) (k : LC) (v : LC)
    (h : ∀ p ∈ m, ¬p.1 = k) : dictUpsert m k v = m ++ [(k, v)] := by
  unfold dictUpsert
  rw [if_neg]
  intro hcon
  rw [List.any_eq_true] at hcon
  obtain ⟨p, hp, hpk⟩ := hcon
  exact h p hp (by simpa using hpk)

theorem foldl_dictUpsert_fresh : ∀ (ids ik : List (LC × LC)),
    (ids.map Prod.fst).Nodup → (∀ kv ∈ ids, ∀ kv2 ∈ ik, ¬kv.1 = kv2.1) →
    ids.foldl (fun m kv => dictUpsert m kv.1 kv.2) ik = ik ++ ids := by
  intro ids
  induction ids with
  | nil =>
    intro ik hnd hdisj
    simp
  | cons kv ids ih =>
    intro ik hnd hdisj
    simp only [List.foldl_cons]
    rw [dictUpsert_fresh ik kv.1 kv.2
      (fun p hp hpk => hdisj kv (by simp) p hp hpk.symm)]
    have hnd' : (ids.map Prod.fst).Nodup := (List.nodup_cons.mp (by simpa using hnd)).2
    have hnotin : kv.1 ∉ ids.map Prod.fst := (List.nodup_cons.mp (by simpa using hnd)).1
    have hdisj2 : ∀ kv2 ∈ ids, ∀ kv3 ∈ ik ++ [kv], ¬kv2.1 = kv3.1 := by
      intro kv2 h2 kv3 h3
      rcases List.mem_append.mp h3 with h | h
      · exact hdisj kv2 (by simp [h2]) kv3 h
      · have hkv : kv3 = kv := by simpa using h
        subst hkv
        intro heq
        exact hnotin (heq ▸ List.mem_map_of_mem Prod.fst h2)
    rw [ih (ik ++ [kv]) hnd' hdisj2]
    simp

theorem commentTokens_run (S : PyStructure)
    (hids : ∀ kv ∈ S.identifiers, kv.1 ∈ identifierFieldNames ∧ kv.2 ≠ [] ∧
      ∀ c ∈ kv.2, pyIsSpace c = false ∧ ¬c = '=')
    (hnd : (S.identifiers.map Prod.fst).Nodup)
    (hcmt : ∀ t ∈ S.xyzComments, "qcio_".data.isPrefixOf t = false) :
    classifyTokens (commentTokens S) [] [] []
      = .ok ([("charge".data, .str (intToChars S.charge)),
              ("multiplicity".data, .str (intToChars S.multiplicity))],
             S.identifiers, S.xyzComments) := by
  unfold commentTokens
  rw [classifyTokens_charge _ (fun c hc => (intToChars_wf _ c hc).2.1) _ _ _ _]
  rw [classifyTokens_mult _ (fun c hc => (intToChars_wf _ c hc).2.1) _ _ _ _]
  rw [show identTokens S = S.identifiers.map
      (fun p => "qcio__identifiers_".data ++ p.1 ++ '=' :: p.2) from by
    unfold identTokens
    rw [List.filter_eq_self.mpr (fun kv hkv => by simp [(hids kv hkv).2.1])]]
  rw [classifyTokens_idents_run S.identifiers S.xyzComments _ _ _
    (fun kv hkv => ⟨(hids kv hkv).1, fun c hc => ((hids kv hkv).2.2 c hc).2⟩)]
  rw [foldl_dictUpsert_fresh S.identifiers [] hnd (by simp)]
  rw [classifyTokens_comments_run S.xyzComments _ _ _ hcmt]
  rfl

theorem mem_joinSep : ∀ (sep : LC) (ls : List LC) (c : Char),
    c ∈ joinSep sep ls → c ∈ sep ∨ ∃ l ∈ ls, c ∈ l := by
  intro sep ls
  induction ls with
  | nil =>
    intro c hc
    simp [joinSep] at hc
  | cons l ls ih =>
    cases ls with
    | nil =>
      intro c hc
      exact Or.inr ⟨l, by simp, hc⟩
    | cons l2 ls2 =>
      intro c hc
      rw [joinSep_cons _ _ _ (by simp)] at hc
      rcases List.mem_append.mp hc with h | h
      · rcases List.mem_append.mp h with h1 | h1
        · exact Or.inr ⟨l, by simp, h1⟩
        · exact Or.inl h1
      · rcases ih c h with h1 | ⟨l3, h3, hc3⟩
        · exact Or.inl h1
        · exact Or.inr ⟨l3, by simp [h3], hc3⟩

theorem charge_prefix_wf : ∀ c ∈ "qcio_charge=".data, pyIsSpace c = false := by
  decide

theorem mult_prefix_wf : ∀ c ∈ "qcio_multiplicity=".data, pyIsSpace c = false := by
  decide

theorem ident_prefix_wf : ∀ c ∈ "qcio__identifiers_".data, pyIsSpace c = false := by
  decide

theorem commentTokens_wf (S : PyStructure)
    (hids : ∀ kv ∈ S.identifiers, kv.1 ∈ identifierFieldNames ∧ kv.2 ≠ [] ∧
      ∀ c ∈ kv.2, pyIsSpace c = false ∧ ¬c = '=')
    (hcmt : ∀ t ∈ S.xyzComments, t ≠ [] ∧ ∀ c ∈ t, pyIsSpace c = false) :
    ∀ t ∈ commentTokens S, t ≠ [] ∧ ∀ c ∈ t, pyIsSpace c = false := by
  intro t ht
  unfold commentTokens at ht
  rcases List.mem_cons.mp ht with h | h
  · subst h
    refine ⟨by simp, ?_⟩
    intro c hc
    rcases List.mem_append.mp hc with h1 | h1
    · exact charge_prefix_wf c h1
    · exact (intToChars_wf _ c h1).1
  rcases List.mem_cons.mp h with h | h
  · subst h
    refine ⟨by simp, ?_⟩
    intro c hc
    rcases List.mem_append.mp hc with h1 | h1
    · exact mult_prefix_wf c h1
    · exact (intToChars_wf _ c h1).1
  rcases List.mem_append.mp h with h | h
  · unfold identTokens at h
    rcases List.mem_map.mp h with ⟨kv, hkv, rfl⟩
    have hkv2 := hids kv (List.mem_of_mem_filter hkv)
    refine ⟨by simp, ?_⟩
    intro c hc
    rcases List.mem_append.mp hc with h1 | h1
    · rcases List.mem_append.mp h1 with h2 | h2
      · exact ident_prefix_wf c h2
      · exact ((identifierFieldNames_wf kv.1 hkv2.1).2 c h2).1
    · rcases List.mem_cons.mp h1 with h2 | h2
      · subst h2
        decide
      · exact (hkv2.2.2 c h2).1
  · exact hcmt t h

theorem padLeft18_no_newline (r : LC) (hr : ∀ x ∈ r, pyIsSpace x = false) :
    ∀ x ∈ padLeft18 r, ¬x = '\n' := by
  intro x hx
  have hx2 : (¬18 - r.length = 0 ∧ x = ' ') ∨ x ∈ r := by simpa [padLeft18] using hx
  rcases hx2 with ⟨_, h2⟩ | h2
  · subst h2
    decide
  · exact not_newline_of_not_space x (hr x h2)

theorem coordLine_no_newline (p : Nat) (sym : LC) (c : ℚ × ℚ × ℚ)
    (hsym : ∀ ch ∈ sym, pyIsSpace ch = false) :
    ∀ ch ∈ coordLine p sym c, ¬ch = '\n' := by
  have hshape : coordLine p sym c
      = sym ++ (List.replicate (2 - sym.length) ' ' ++ [' '])
        ++ (padLeft18 (renderFixed p (c.1 * BOHR_TO_ANGSTROM))
          ++ ' ' :: (padLeft18 (renderFixed p (c.2.1 * BOHR_TO_ANGSTROM))
            ++ ' ' :: padLeft18 (renderFixed p (c.2.2 * BOHR_TO_ANGSTROM)))) := by
    simp [coordLine, pyFormat2s]
  intro ch hc
  rw [hshape] at hc
  rcases List.mem_append.mp hc with h | h
  · rcases List.mem_append.mp h with h1 | h1
    · exact not_newline_of_not_space ch (hsym ch h1)
    · rcases List.mem_append.mp h1 with h2 | h2
      · rw [List.eq_of_mem_replicate h2]
        decide
      · rw [show ch = ' ' from by simpa using h2]
        decide
  · rcases List.mem_append.mp h with h1 | h1
    · exact padLeft18_no_newline _ (renderFixed_wf p _) ch h1
    rcases List.mem_cons.mp h1 with h1 | h1
    · subst h1
      decide
    rcases List.mem_append.mp h1 with h1 | h1
    · exact padLeft18_no_newline _ (renderFixed_wf p _) ch h1
    rcases List.mem_cons.mp h1 with h1 | h1
    · subst h1
      decide
    · exact padLeft18_no_newline _ (renderFixed_wf p _) ch h1

theorem commentTokens_nl (S : PyStructure)
    (hidsN : ∀ kv ∈ S.identifiers, (∀ c ∈ kv.1, ¬c = '\n') ∧ ∀ c ∈ kv.2, ¬c = '\n')
    (hcmtN : ∀ t ∈ S.xyzComments, ∀ c ∈ t, ¬c = '\n') :
    ∀ t ∈ commentTokens S, ∀ c ∈ t, ¬c = '\n' := by
  intro t ht
  unfold commentTokens at ht
  rcases List.mem_cons.mp ht with h | h
  · subst h
    intro c hc
    rcases List.mem_append.mp hc with h1 | h1
    · exact not_newline_of_not_space c (charge_prefix_wf c h1)
    · exact (intToChars_wf _ c h1).2.2
  rcases List.mem_cons.mp h with h | h
  · subst h
    intro c hc
    rcases List.mem_append.mp hc with h1 | h1
    · exact not_newline_of_not_space c (mult_prefix_wf c h1)
    · exact (intToChars_wf _ c h1).2.2
  rcases List.mem_append.mp h with h | h
  · unfold identTokens at h
    rcases List.mem_map.mp h with ⟨kv, hkv, rfl⟩
    have hkv2 := hidsN kv (List.mem_of_mem_filter hkv)
    intro c hc
    rcases List.mem_append.mp hc with h1 | h1
    · rcases List.mem_append.mp h1 with h2 | h2
      · exact not_newline_of_not_space c (ident_prefix_wf c h2)
      · exact hkv2.1 c h2
    · rcases List.mem_cons.mp h1 with h2 | h2
      · subst h2
        decide
      · exact hkv2.2 c h2
  · exact hcmtN t h

theorem splitLines_toXyz (S : PyStructure) (p : Nat)
    (hsym : ∀ s ∈ S.symbols, ∀ c ∈ s, pyIsSpace c = false)
    (hidsN : ∀ kv ∈ S.identifiers, (∀ c ∈ kv.1, ¬c = '\n') ∧ ∀ c ∈ kv.2, ¬c = '\n')
    (hcmtN : ∀ t ∈ S.xyzComments, ∀ c ∈ t, ¬c = '\n') :
    splitLines (toXyz S p) = toXyzLines S p := by
  unfold toXyz
  refine splitLines_joinSep _ ?_ ?_
  · unfold toXyzLines
    simp
  · intro l hl
    unfold toXyzLines at hl
    rcases List.mem_cons.mp hl with h | h
    · subst h
      intro c hc
      exact digit_ne c (natToChars_all_digits _ c hc) '\n' (by decide)
    rcases List.mem_cons.mp h with h | h
    · subst h
      intro c hc
      rcases mem_joinSep [' '] (commentTokens S) c hc with h1 | ⟨t, ht, hct⟩
      · rw [show c = ' ' from by simpa using h1]
        decide
      · exact commentTokens_nl S hidsN hcmtN t ht c hct
    rcases List.mem_append.mp h with h | h
    · rcases List.mem_map.mp h with ⟨sg, hsg, rfl⟩
      exact coordLine_no_newline p sg.1 sg.2 (hsym sg.1 (List.of_mem_zip hsg).1)
    · rw [show l = [] from by simpa using h]
      intro c hc
      cases hc

theorem parseCoordRows_cons (line : LC) (rest : List LC) :
    parseCoordRows (line :: rest) =
      (match pySplitWs line with
      | [] => .error "IndexError: list index out of range".data
      | s :: vals =>
        match vals.mapM pyFloat with
        | none => .error "ValueError: could not convert string to float".data
        | some qs =>
          match parseCoordRows rest with
          | .error e => .error e
          | .ok pr => .ok (s :: pr.1, qs.map (fun q => q / BOHR_TO_ANGSTROM) :: pr.2)) := rfl

theorem mapM_renderFixed (p : Nat) (a b c : ℚ) :
    ([renderFixed p (a * BOHR_TO_ANGSTROM), renderFixed p (b * BOHR_TO_ANGSTROM),
      renderFixed p (c * BOHR_TO_ANGSTROM)] : List LC).mapM pyFloat
      = some [((round (a * BOHR_TO_ANGSTROM * (10 : ℚ) ^ p) : ℤ) : ℚ) / (10 : ℚ) ^ p,
              ((round (b * BOHR_TO_ANGSTROM * (10 : ℚ) ^ p) : ℤ) : ℚ) / (10 : ℚ) ^ p,
              ((round (c * BOHR_TO_ANGSTROM * (10 : ℚ) ^ p) : ℤ) : ℚ) / (10 : ℚ) ^ p] := by
  simp [List.mapM.loop, pyFloat_renderFixed]

theorem parseCoordRows_run (p : Nat) : ∀ (sg : List (LC × (ℚ × ℚ × ℚ))),
    (∀ x ∈ sg, (∀ c ∈ x.1, pyIsSpace c = false) ∧ x.1 ≠ []) →
    parseCoordRows (sg.map (fun x => coordLine p x.1 x.2))
      = .ok (sg.map Prod.fst,
             sg.map (fun x => [roundCoord p x.2.1, roundCoord p x.2.2.1,
               roundCoord p x.2.2.2])) := by
  intro sg
  induction sg with
  | nil =>
    intro h
    rfl
  | cons x sg ih =>
    intro h
    rw [show ((x :: sg).map (fun x => coordLine p x.1 x.2))
        = coordLine p x.1 x.2 :: sg.map (fun x => coordLine p x.1 x.2) from rfl]
    rw [parseCoordRows_cons]
    rw [pySplitWs_coordLine p x.1 x.2 (h x (by simp)).1 (h x (by simp)).2]
    simp only []
    rw [mapM_renderFixed p x.2.1 x.2.2.1 x.2.2.2]
    simp only []
    rw [ih (fun y hy => h y (by simp [hy]))]
    simp only []
    rfl

theorem flatten_triples_length : ∀ (ts : List (ℚ × ℚ × ℚ)),
    (ts.map (fun t => ([t.1, t.2.1, t.2.2] : List ℚ))).flatten.length
      = 3 * ts.length := by
  intro ts
  induction ts with
  | nil => rfl
  | cons t ts ih =>
    simp only [List.map_cons, List.flatten_cons, List.length_append, ih,
      List.length_cons, List.length_nil]
    omega

theorem group3_flatten_triples : ∀ (ts : List (ℚ × ℚ × ℚ)),
    group3 (ts.map (fun t => ([t.1, t.2.1, t.2.2] : List ℚ))).flatten = ts := by
  intro ts
  induction ts with
  | nil => rfl
  | cons t ts ih =>
    simp only [List.map_cons, List.flatten_cons]
    rw [show ([t.1, t.2.1, t.2.2] : List ℚ)
          ++ (ts.map (fun t => ([t.1, t.2.1, t.2.2] : List ℚ))).flatten
        = t.1 :: t.2.1 :: t.2.2
          :: (ts.map (fun t => ([t.1, t.2.1, t.2.2] : List ℚ))).flatten from rfl]
    rw [group3, ih]

theorem reshapeRows_triples : ∀ (ts : List (ℚ × ℚ × ℚ)),
    reshapeRows (ts.map (fun t => [t.1, t.2.1, t.2.2])) ts.length = .ok ts := by
  intro ts
  have huni : (match ts.map (fun t => ([t.1, t.2.1, t.2.2] : List ℚ)) with
      | [] => true
      | r :: rs => rs.all (fun x => x.length = r.length)) = true := by
    cases ts with
    | nil => rfl
    | cons t ts =>
      simp only [List.map_cons]
      rw [List.all_eq_true]
      intro x hx
      rcases List.mem_map.mp hx with ⟨t2, ht2, rfl⟩
      simp
  unfold reshapeRows
  rw [if_pos ⟨huni, flatten_triples_length ts⟩]
  rw [group3_flatten_triples ts]

theorem fromXyzLines_toXyz (S : PyStructure) (p : Nat)
    (hlen : S.geometry.length = S.symbols.length)
    (hsymtab : ∀ s ∈ S.symbols, s ∈ periodicTableSymbols)
    (hids : ∀ kv ∈ S.identifiers, kv.1 ∈ identifierFieldNames ∧ kv.2 ≠ [] ∧
      ∀ c ∈ kv.2, pyIsSpace c = false ∧ ¬c = '=')
    (hnd : (S.identifiers.map Prod.fst).Nodup)
    (hcmtA : ∀ t ∈ S.xyzComments, t ≠ [] ∧ ∀ c ∈ t, pyIsSpace c = false)
    (hcmtB : ∀ t ∈ S.xyzComments, "qcio_".data.isPrefixOf t = false) :
    fromXyzLines (toXyzLines S p) none none
      = .ok ⟨S.symbols,
             S.geometry.map (fun g =>
               (roundCoord p g.1, roundCoord p g.2.1, roundCoord p g.2.2)),
             S.charge, S.multiplicity, S.identifiers, S.xyzComments⟩ := by
  have hsym : ∀ s ∈ S.symbols, ∀ c ∈ s, pyIsSpace c = false :=
    fun s hs => (periodicTable_wf s (hsymtab s hs)).2.2
  have hsymne : ∀ s ∈ S.symbols, s ≠ [] :=
    fun s hs => (periodicTable_wf s (hsymtab s hs)).2.1
  have h0 : pyInt (toXyzLines S p).headI = some ((S.symbols.length : Nat) : Int) :=
    pyInt_natToChars S.symbols.length
  have h1 : (toXyzLines S p).get? 1 = some (joinSep [' '] (commentTokens S)) := rfl
  have h2 : pySplitWs (pyStrip (joinSep [' '] (commentTokens S))) = commentTokens S := by
    rw [pySplitWs_pyStrip]
    exact pySplitWs_joinSep _ (commentTokens_wf S hids hcmtA)
  have hrowlen : ((S.symbols.zip S.geometry).map
      (fun sg => coordLine p sg.1 sg.2)).length = S.symbols.length := by
    rw [List.length_map, List.length_zip, hlen, min_self]
  have h3 : pySlice (toXyzLines S p) 2 (2 + (S.symbols.length : Int))
      = (S.symbols.zip S.geometry).map (fun sg => coordLine p sg.1 sg.2) := by
    rw [show (2 : Int) + (S.symbols.length : Int)
        = ((2 + S.symbols.length : Nat) : Int) from by push_cast; ring]
    rw [show (2 : Int) = ((2 : Nat) : Int) from rfl]
    rw [pySlice_nat _ 2 (2 + S.symbols.length) (by omega) (by
      show 2 + S.symbols.length ≤ (toXyzLines S p).length
      unfold toXyzLines
      simp only [List.length_cons, List.length_append, List.length_map,
        List.length_zip, hlen, min_self, List.length_nil]
      omega)]
    rw [show (toXyzLines S p).drop 2
        = ((S.symbols.zip S.geometry).map (fun sg => coordLine p sg.1 sg.2))
          ++ [[]] from rfl]
    rw [show 2 + S.symbols.length - 2 = S.symbols.length from by omega]
    rw [← hrowlen]
    exact List.take_left _ _
  unfold fromXyzLines
  rw [h0]
  simp only []
  rw [h1]
  simp only []
  rw [h2]
  rw [commentTokens_run S hids hnd hcmtB]
  simp only []
  rw [if_neg (by simp)]
  rw [if_neg (by simp)]
  rw [h3]
  rw [parseCoordRows_run p (S.symbols.zip S.geometry)
    (fun x hx => ⟨hsym x.1 (List.of_mem_zip hx).1, hsymne x.1 (List.of_mem_zip hx).1⟩)]
  simp only []
  rw [show ((S.symbols.zip S.geometry).map Prod.fst) = S.symbols from
    List.map_fst_zip _ _ (le_of_eq hlen.symm)]
  have hall : (([("charge".data, PyScalar.str (intToChars S.charge)),
      ("multiplicity".data, PyScalar.str (intToChars S.multiplicity))]
        : List (LC × PyScalar)).all
      (fun p => p.1 = "charge".data ∨ p.1 = "multiplicity".data)) = true := rfl
  rw [if_neg (fun hcon => hcon hall)]
  rw [show dictLookup ([("charge".data, PyScalar.str (intToChars S.charge)),
      ("multiplicity".data, PyScalar.str (intToChars S.multiplicity))]
        : List (LC × PyScalar)) "charge".data
      = some (PyScalar.str (intToChars S.charge)) from rfl]
  rw [show dictLookup ([("charge".data, PyScalar.str (intToChars S.charge)),
      ("multiplicity".data, PyScalar.str (intToChars S.multiplicity))]
        : List (LC × PyScalar)) "multiplicity".data
      = some (PyScalar.str (intToChars S.multiplicity)) from rfl]
  simp only []
  rw [show coerceInt (PyScalar.str (intToChars S.charge))
      = pyInt (intToChars S.charge) from rfl]
  rw [show coerceInt (PyScalar.str (intToChars S.multiplicity))
      = pyInt (intToChars S.multiplicity) from rfl]
  rw [pyInt_intToChars S.charge, pyInt_intToChars S.multiplicity]
  simp only []
  unfold mkStructure
  rw [show S.symbols.map pyCapitalize = S.symbols from by
    rw [show S.symbols.map pyCapitalize = S.symbols.map id from
      List.map_congr_left (fun s hs => (periodicTable_wf s (hsymtab s hs)).1)]
    exact List.map_id _]
  rw [if_neg (not_not_intro (by
    rw [List.all_eq_true]
    intro s hs
    simpa [List.contains] using List.elem_eq_true_of_mem (hsymtab s hs)))]
  rw [if_neg (not_not_intro (by
    rw [List.all_eq_true]
    intro kv hkv
    simpa [List.contains] using List.elem_eq_true_of_mem (hids kv hkv).1))]
  rw [show ((S.symbols.zip S.geometry).map (fun x =>
        ([roundCoord p x.2.1, roundCoord p x.2.2.1, roundCoord p x.2.2.2] : List ℚ)))
      = (S.geometry.map (fun g =>
          (roundCoord p g.1, roundCoord p g.2.1, roundCoord p g.2.2))).map
        (fun t => [t.1, t.2.1, t.2.2]) from by
    rw [show (fun x : LC × (ℚ × ℚ × ℚ) =>
        ([roundCoord p x.2.1, roundCoord p x.2.2.1, roundCoord p x.2.2.2] : List ℚ))
      = ((fun t : ℚ × ℚ × ℚ => ([t.1, t.2.1, t.2.2] : List ℚ))
          ∘ ((fun g : ℚ × ℚ × ℚ =>
            (roundCoord p g.1, roundCoord p g.2.1, roundCoord p g.2.2))
          ∘ Prod.snd)) from rfl]
    rw [← List.map_map]
    rw [← List.map_map]
    rw [List.map_snd_zip _ _ (le_of_eq hlen)]]
  rw [show S.symbols.length
      = (S.geometry.map (fun g =>
          (roundCoord p g.1, roundCoord p g.2.1, roundCoord p g.2.2))).length from by
    rw [List.length_map, hlen]]
  rw [reshapeRows_triples]

/-- Claim C1 (amended): for a structure with table symbols, an `N x 3`
geometry, identifier values that are nonempty, whitespace-free and free of
`=`, distinct identifier keys drawn from the `Identifiers` fields, and
comment tokens that are nonempty, whitespace-free and not `qcio_`-prefixed,
parsing `to_xyz(precision)` output with `from_xyz` reproduces the symbols,
charge, multiplicity, identifiers and comments exactly and every geometry
component to within `1 / 10 ^ precision` Bohr, the conversion passing through
`BOHR_TO_ANGSTROM` on both sides.  Without the whitespace-freedom conditions
the claim fails (see the counterexample). -/
theorem claim_C1 (S : PyStructure) (p : Nat)
    (hlen : S.geometry.length = S.symbols.length)
    (hsymtab : ∀ s ∈ S.symbols, s ∈ periodicTableSymbols)
    (hids : ∀ kv ∈ S.identifiers, kv.1 ∈ identifierFieldNames ∧ kv.2 ≠ [] ∧
      ∀ c ∈ kv.2, pyIsSpace c = false ∧ ¬c = '=')
    (hnd : (S.identifiers.map Prod.fst).Nodup)
    (hcmtA : ∀ t ∈ S.xyzComments, t ≠ [] ∧ ∀ c ∈ t, pyIsSpace c = false)
    (hcmtB : ∀ t ∈ S.xyzComments, "qcio_".data.isPrefixOf t = false) :
    ∃ S2 : PyStructure,
      fromXyz (toXyz S p) none none = .ok S2 ∧
      S2.symbols = S.symbols ∧
      S2.charge = S.charge ∧
      S2.multiplicity = S.multiplicity ∧
      S2.identifiers = S.identifiers ∧
      S2.xyzComments = S.xyzComments ∧
      List.Forall₂ (fun g g2 : ℚ × ℚ × ℚ =>
        |g2.1 - g.1| ≤ 1 / (10 : ℚ) ^ p ∧ |g2.2.1 - g.2.1| ≤ 1 / (10 : ℚ) ^ p ∧
        |g2.2.2 - g.2.2| ≤ 1 / (10 : ℚ) ^ p) S.geometry S2.geometry := by
  have hsym : ∀ s ∈ S.symbols, ∀ c ∈ s, pyIsSpace c = false :=
    fun s hs => (periodicTable_wf s (hsymtab s hs)).2.2
  refine ⟨⟨S.symbols,
      S.geometry.map (fun g =>
        (roundCoord p g.1, roundCoord p g.2.1, roundCoord p g.2.2)),
      S.charge, S.multiplicity, S.identifiers, S.xyzComments⟩,
    ?_, rfl, rfl, rfl, rfl, rfl, ?_⟩
  · unfold fromXyz
    rw [splitLines_toXyz S p hsym
      (fun kv hkv => ⟨fun c hc => not_newline_of_not_space c
          (((identifierFieldNames_wf kv.1 (hids kv hkv).1).2 c hc).1),
        fun c hc => not_newline_of_not_space c ((hids kv hkv).2.2 c hc).1⟩)
      (fun t ht c hc => not_newline_of_not_space c ((hcmtA t ht).2 c hc))]
    exact fromXyzLines_toXyz S p hlen hsymtab hids hnd hcmtA hcmtB
  · rw [List.forall₂_map_right_iff]
    rw [List.forall₂_same]
    intro g hg
    exact ⟨roundtrip_coord_bound g.1 p, roundtrip_coord_bound g.2.1 p,
      roundtrip_coord_bound g.2.2 p⟩

theorem natToChars_one : natToChars 1 = ['1'] := by
  simp [natToChars, natDigitsRev, digitChar]

theorem roundCoord_zero (p : Nat) : roundCoord p 0 = 0 := by
  unfold roundCoord
  rw [show ((0 : ℚ) * BOHR_TO_ANGSTROM * (10 : ℚ) ^ p) = 0 from by ring]
  rw [round_zero]
  norm_num

theorem commentTokens_c1S : commentTokens c1S
    = ["qcio_charge=0".data, "qcio_multiplicity=1".data,
       "qcio__identifiers_smiles=a qcio_charge=9".data] := by
  unfold commentTokens
  rw [show intToChars c1S.multiplicity = ['1'] from by
    rw [show intToChars c1S.multiplicity = natToChars 1 from rfl]
    exact natToChars_one]
  rfl

/-- Claim C1 counterexample: the roundtrip claim is not universal.  A valid
structure whose `smiles` identifier value contains whitespace followed by a
`qcio_charge=` token is serialized into a comment line that `from_xyz`
re-tokenizes on whitespace; the injected token lands in the structure kwargs
dict, where the later assignment wins, so the parsed charge is 9 although the
original charge is 0. -/
theorem claim_C1_counterexample :
    c1S.charge = 0 ∧
    fromXyz (toXyz c1S 1) none none
      = .ok ⟨["H".data], [(0, 0, 0)], 9, 1, [("smiles".data, ['a'])], []⟩ := by
  refine ⟨rfl, ?_⟩
  have hsplit2 : pySplitWs (pyStrip (joinSep [' '] (commentTokens c1S)))
      = ["qcio_charge=0".data, "qcio_multiplicity=1".data,
         "qcio__identifiers_smiles=a".data, "qcio_charge=9".data] := by
    rw [commentTokens_c1S]
    decide
  have hclass : classifyTokens (["qcio_charge=0".data, "qcio_multiplicity=1".data,
      "qcio__identifiers_smiles=a".data, "qcio_charge=9".data] : List LC) [] [] []
      = .ok ([("charge".data, PyScalar.str ['9']),
              ("multiplicity".data, PyScalar.str ['1'])],
             [("smiles".data, ['a'])], []) := by
    rw [show ("qcio_charge=0".data : LC) = "qcio_charge=".data ++ ['0'] from rfl]
    rw [classifyTokens_charge ['0'] (by decide)]
    rw [show ("qcio_multiplicity=1".data : LC)
        = "qcio_multiplicity=".data ++ ['1'] from rfl]
    rw [classifyTokens_mult ['1'] (by decide)]
    rw [show ("qcio__identifiers_smiles=a".data : LC)
        = "qcio__identifiers_".data ++ "smiles".data ++ '=' :: ['a'] from rfl]
    rw [classifyTokens_ident "smiles".data ['a'] (by decide) (by decide)]
    rw [show ("qcio_charge=9".data : LC) = "qcio_charge=".data ++ ['9'] from rfl]
    rw [classifyTokens_charge ['9'] (by decide)]
    rfl
  unfold fromXyz
  rw [splitLines_toXyz c1S 1 (by decide) (by decide) (by decide)]
  have h0 : pyInt (toXyzLines c1S 1).headI = some ((1 : Nat) : Int) :=
    pyInt_natToChars 1
  have h1 : (toXyzLines c1S 1).get? 1
      = some (joinSep [' '] (commentTokens c1S)) := rfl
  unfold fromXyzLines
  rw [h0]
  simp only []
  rw [h1]
  simp only []
  rw [hsplit2, hclass]
  simp only []
  rw [if_neg (by simp)]
  rw [if_neg (by simp)]
  rw [show pySlice (toXyzLines c1S 1) 2 (2 + ((1 : Nat) : Int))
      = [coordLine 1 "H".data ((0 : ℚ), (0 : ℚ), (0 : ℚ))] from rfl]
  rw [show ([coordLine 1 "H".data ((0 : ℚ), (0 : ℚ), (0 : ℚ))] : List LC)
      = ([("H".data, ((0 : ℚ), (0 : ℚ), (0 : ℚ)))]
          : List (LC × (ℚ × ℚ × ℚ))).map (fun x => coordLine 1 x.1 x.2) from rfl]
  rw [parseCoordRows_run 1 _ (by decide)]
  simp only []
  rw [show (([("H".data, ((0 : ℚ), (0 : ℚ), (0 : ℚ)))]
        : List (LC × (ℚ × ℚ × ℚ))).map (fun x =>
          ([roundCoord 1 x.2.1, roundCoord 1 x.2.2.1, roundCoord 1 x.2.2.2] : List ℚ)))
      = [[roundCoord 1 0, roundCoord 1 0, roundCoord 1 0]] from rfl]
  rw [roundCoord_zero 1]
  decide

theorem claim_C1_witness :
    ∃ S2 : PyStructure,
      fromXyz (toXyz c1W 2) none none = .ok S2 ∧
      S2.symbols = c1W.symbols ∧
      S2.charge = c1W.charge ∧
      S2.multiplicity = c1W.multiplicity ∧
      S2.identifiers = c1W.identifiers ∧
      S2.xyzComments = c1W.xyzComments ∧
      List.Forall₂ (fun g g2 : ℚ × ℚ × ℚ =>
        |g2.1 - g.1| ≤ 1 / (10 : ℚ) ^ 2 ∧ |g2.2.1 - g.2.1| ≤ 1 / (10 : ℚ) ^ 2 ∧
        |g2.2.2 - g.2.2| ≤ 1 / (10 : ℚ) ^ 2) c1W.geometry S2.geometry :=
  claim_C1 c1W 2 (by decide) (by decide) (by decide) (by decide) (by decide)
    (by decide)
